import Mathlib

/-!
# drizzle-seeder: deferred-reference resolution and batched insertion engine

A shallow embedding of the seeder core of `src/sqlite-core/seed.ts`
(the Postgres core in `pg-core/seed.ts` is the same algorithm with a
different parameter ceiling, so the engine below is parameterised by
`maxParams`).

Modelling conventions:
* JS values appearing in a generated chunk are `Val`: a plain
  serialisable value, a `ColumnValueReference` object, a
  `GeneratedAsPlaceholder` object, or `undefined`.
* The user-supplied `transformFn` of a reference is defunctionalised as
  `Transform` with an interpreter `applyTransform`.
* The scratch SQLite reference store is a list of rows keyed by
  `(table, _rowIndex)`; `devalue`'s `stringify`/`parse` round-trip is
  modelled as the identity on serialisable values, and as an error on a
  value holding a function (a `ColumnValueReference`), which is what
  `stringify` does.
* The external database is a collaborator: each `db.insert(...).values(...)`
  call is logged as an `Insert` event (together with the flushed batch's
  row indices and un-resolved chunks, which are data of the flush).
* The two `while (madeProgress)` loops are written with an explicit fuel
  of `totalQueued + 1`; a full pass that makes progress strictly
  decreases the number of queued chunks, so this fuel is never
  exhausted (proved below), and the fueled function agrees with the
  source loop.
* SQL-level failures of the scratch store (querying a table absent from
  its schema) are not modelled; the claims constrain references to
  tables declared in the refs config.
-/

namespace DrizzleSeeder

/-- A plain (devalue-serialisable) JS value. -/
inductive Plain where
  | pint : Int → Plain
  | pstr : String → Plain
  | pbool : Bool → Plain
  | pnull : Plain
deriving DecidableEq, Repr

/-- Defunctionalised `transformFn` of a `ColumnValueReference`. -/
inductive Transform where
  | tid : Transform
  | tconst : Plain → Transform
deriving DecidableEq, Repr

/-- The data of a `ColumnValueReference` object (placeholders.ts). -/
structure RefData where
  refTableName : String
  refRowIndex : Nat
  refColumnName : String
  transformFn : Transform
deriving DecidableEq, Repr

/-- A JS value as it appears in a chunk cell. -/
inductive Val where
  | plain : Plain → Val
  | ref : RefData → Val
  | generated : Val
  | undef : Val
deriving DecidableEq, Repr

/-- Run a defunctionalised transform on a resolved value. -/
def applyTransform : Transform → Val → Val
  | Transform.tid, v => v
  | Transform.tconst p, _ => Val.plain p

/-- `isColumnValueReference` tag check (placeholders.ts). -/
def isColumnValueReference : Val → Bool
  | Val.ref _ => true
  | _ => false

/-- `isGeneratedAsPlaceholder` tag check (placeholders.ts). -/
def isGeneratedAsPlaceholder : Val → Bool
  | Val.generated => true
  | _ => false

/-- A chunk's data: the column-name/value pairs, in column iteration
order, with `_tag` already removed. -/
abbrev Chunk := List (String × Val)

/-- One generated row as yielded by the generator stream: its `_tag`
(table name) and the remaining columns. -/
structure RawChunk where
  table : String
  data : Chunk
deriving DecidableEq, Repr

/-- `chunk[col]`: JS property access, `undefined` when absent. -/
def chunkGet (c : Chunk) (col : String) : Val :=
  match c.find? (fun p => p.1 == col) with
  | some p => p.2
  | none => Val.undef

/-- `extractRefs`: the `ColumnValueReference` values of a chunk, in
column iteration order (seed.ts lines 119-129). -/
def extractRefs (c : Chunk) : List RefData :=
  c.filterMap (fun p =>
    match p.2 with
    | Val.ref r => some r
    | _ => none)

/-- One row of the scratch reference store: the table, the `_rowIndex`
primary key, and the stored (stringified) referenceable columns. -/
structure StoreRow where
  table : String
  rowIndex : Nat
  cols : List (String × Val)
deriving DecidableEq, Repr

/-- The scratch reference store: its rows, in insertion order. -/
abbrev RefStore := List StoreRow

/-- `SELECT ... WHERE _rowIndex = ?`: first row of the store for the
given table and row index. -/
def storeFind (st : RefStore) (t : String) (i : Nat) : Option (List (String × Val)) :=
  (st.find? (fun row => row.table == t && row.rowIndex == i)).map StoreRow.cols

/-- `refExists` (seed.ts lines 131-140). -/
def refExists (ref : RefData) (st : RefStore) : Bool :=
  (storeFind st ref.refTableName ref.refRowIndex).isSome

/-- `resolveRef` (seed.ts lines 142-155): `undefined` when the row or
the column is absent, otherwise `transformFn(parse(rawValue))`. -/
def resolveRef (ref : RefData) (st : RefStore) : Val :=
  match storeFind st ref.refTableName ref.refRowIndex with
  | none => Val.undef
  | some row =>
    match row.find? (fun p => p.1 == ref.refColumnName) with
    | none => Val.undef
    | some p => applyTransform ref.transformFn p.2

/-- `areAllRefsResolved` (seed.ts lines 157-167). -/
def areAllRefsResolved (refs : List RefData) (st : RefStore) : Bool :=
  refs.all (fun r => refExists r st)

/-- The error thrown by `resolveChunk` when no scratch store exists. -/
def cannotResolveRefMsg (r : RefData) : String :=
  "Cannot resolve ref without SQLite database: " ++ r.refTableName ++ "[" ++
    toString r.refRowIndex ++ "]." ++ r.refColumnName

/-- `resolveChunk` (seed.ts lines 169-190): substitute each reference
with its resolved value, drop generated placeholders, throw when a
reference is met with no scratch store. -/
def resolveChunk : Chunk → Option RefStore → Except String Chunk
  | [], _ => Except.ok []
  | (k, v) :: rest, store =>
    match v with
    | Val.ref r =>
      match store with
      | none => Except.error (cannotResolveRefMsg r)
      | some st =>
        match resolveChunk rest store with
        | Except.error e => Except.error e
        | Except.ok tail => Except.ok ((k, resolveRef r st) :: tail)
    | Val.generated => resolveChunk rest store
    | v' =>
      match resolveChunk rest store with
      | Except.error e => Except.error e
      | Except.ok tail => Except.ok ((k, v') :: tail)

/-- `devalue.stringify`, as far as the store is concerned: the identity
on serialisable values, an error on a value holding a function. -/
def serializeVal : Val → Except String Val
  | Val.ref _ => Except.error "Cannot stringify a function"
  | v => Except.ok v

/-- `getBatchSizeForTable` (seed.ts lines 80-82): `floor(maxParams /
columnCount)`.  (Every table has at least one column, so the JS
`columnCount = 0` corner, where the quotient is `Infinity`, is outside
the modelled inputs.) -/
def getBatchSizeForTable (maxParams columnCount : Nat) : Nat :=
  maxParams / columnCount

/-- A chunk parked in a table's deferred queue (seed.ts lines 39-43). -/
structure QueuedChunk where
  chunk : Chunk
  rowIndex : Nat
  pendingRefs : List RefData
deriving DecidableEq, Repr

/-- Per-table state (seed.ts lines 30-37). -/
structure TableState where
  batch : List Chunk
  queue : List QueuedChunk
  seededCount : Nat
  rowIndices : List Nat
  batchSize : Nat
  columnCount : Nat
deriving DecidableEq, Repr

/-- One call of the external bulk insert `db.insert(table).values(rows)`,
with the flushed batch's bookkeeping data. -/
structure Insert where
  table : String
  rows : List Chunk
  rowIndices : List Nat
  rawChunks : List Chunk
deriving DecidableEq, Repr

/-- The whole run's mutable state: the per-table states and row
counters (JS `Map`s, insertion ordered), the scratch store (`none` when
no refs are configured), and the log of external bulk inserts. -/
structure EngineState where
  tableStates : List (String × TableState)
  rowIndexByTable : List (String × Nat)
  store : Option RefStore
  inserts : List Insert
deriving DecidableEq, Repr

/-- The seeder's configuration: the parameter ceiling of the target
(999 for SQLite, 65535 for Postgres), the parsed refs config
(table name to its declared referenceable columns, insertion ordered),
and the table names of the drizzle schema. -/
structure SeederConfig where
  maxParams : Nat
  refsConfig : List (String × List String)
  schema : List String
deriving DecidableEq, Repr

/-- `refsConfig.size > 0`. -/
def SeederConfig.hasRefs (cfg : SeederConfig) : Bool :=
  !cfg.refsConfig.isEmpty

/-- Ordered-map lookup (JS `Map.get`). -/
def lookupAssoc (xs : List (String × α)) (k : String) : Option α :=
  (xs.find? (fun p => p.1 == k)).map Prod.snd

/-- Ordered-map update (JS `Map.set`): in place when the key exists,
appended otherwise. -/
def updateAssoc (xs : List (String × α)) (k : String) (v : α) : List (String × α) :=
  match xs with
  | [] => [(k, v)]
  | (k', v') :: rest =>
    if k' == k then (k, v) :: rest else (k', v') :: updateAssoc rest k v

def lookupTS (s : EngineState) (t : String) : Option TableState :=
  lookupAssoc s.tableStates t

def lookupRefCols (cfg : SeederConfig) (t : String) : Option (List String) :=
  lookupAssoc cfg.refsConfig t

/-- Sequential error-propagating map (the JS loop / `Array.map` over a
fallible body). -/
def mapExcept (f : α → Except String β) : List α → Except String (List β)
  | [] => Except.ok []
  | a :: as =>
    match f a with
    | Except.error e => Except.error e
    | Except.ok b =>
      match mapExcept f as with
      | Except.error e => Except.error e
      | Except.ok bs => Except.ok (b :: bs)

/-- The store-record step of `flush` (seed.ts lines 213-231): for each
flushed chunk, insert a store row holding `stringify(chunk[col])` for
each declared referenceable column, keyed by the chunk's row index. -/
def recordRefs (cfg : SeederConfig) (tableName : String) (ts : TableState) :
    Option RefStore → Except String (Option RefStore)
  | none => Except.ok none
  | some st =>
    match lookupRefCols cfg tableName with
    | none => Except.ok (some st)
    | some cols =>
      if cols.isEmpty then Except.ok (some st)
      else
        match mapExcept (fun p =>
          match mapExcept (fun col => serializeVal (chunkGet p.1 col)) cols with
          | Except.error e => Except.error e
          | Except.ok vals =>
            Except.ok { table := tableName, rowIndex := p.2, cols := cols.zip vals : StoreRow })
          (ts.batch.zip ts.rowIndices) with
        | Except.error e => Except.error e
        | Except.ok rows => Except.ok (some (st ++ rows))

/-- `flush` (seed.ts lines 192-236) on one table's state: resolve the
batch, emit the bulk-insert event, record referenceable columns in the
store, clear the batch.  Returns the new table state, the new store,
and the insert event (if the batch was non-empty). -/
def flushTable (cfg : SeederConfig) (tableName : String) (ts : TableState)
    (store : Option RefStore) :
    Except String (TableState × Option RefStore × Option Insert) :=
  if ts.batch.isEmpty then Except.ok (ts, store, none)
  else if !cfg.schema.contains tableName then
    Except.error ("Table \"" ++ tableName ++ "\" not found in schema")
  else
    match mapExcept (fun c => resolveChunk c store) ts.batch with
    | Except.error e => Except.error e
    | Except.ok resolvedBatch =>
      match recordRefs cfg tableName ts store with
      | Except.error e => Except.error e
      | Except.ok store' =>
        Except.ok
          ({ ts with
              batch := [],
              rowIndices := [],
              seededCount := ts.seededCount + ts.batch.length },
           store',
           some { table := tableName, rows := resolvedBatch,
                  rowIndices := ts.rowIndices, rawChunks := ts.batch })

/-- `flush` lifted to the engine state: a no-op when the table has no
state (flush is only ever called on sighted tables). -/
def flushTableInState (cfg : SeederConfig) (tableName : String) (s : EngineState) :
    Except String EngineState :=
  match lookupAssoc s.tableStates tableName with
  | none => Except.ok s
  | some ts =>
    match flushTable cfg tableName ts s.store with
    | Except.error e => Except.error e
    | Except.ok (ts', store', ins) =>
      Except.ok
        { s with
            tableStates := updateAssoc s.tableStates tableName ts',
            store := store',
            inserts := s.inserts ++ ins.toList }

/-- One table's share of a drain pass (seed.ts lines 248-263): move the
queued chunks whose references are all resolved into the batch, keep
the rest queued.  Also reports whether anything moved. -/
def drainTable (ts : TableState) (st : RefStore) : TableState × Bool :=
  let parts := ts.queue.partition (fun q => areAllRefsResolved q.pendingRefs st)
  ({ ts with
      batch := ts.batch ++ parts.1.map QueuedChunk.chunk,
      rowIndices := ts.rowIndices ++ parts.1.map QueuedChunk.rowIndex,
      queue := parts.2 },
   !parts.1.isEmpty)

/-- One full pass of `drainAllQueues` over every table. -/
def drainPass (tss : List (String × TableState)) (st : RefStore) :
    List (String × TableState) × Bool :=
  match tss with
  | [] => ([], false)
  | (name, ts) :: rest =>
    let r1 := drainTable ts st
    let r2 := drainPass rest st
    ((name, r1.1) :: r2.1, r1.2 || r2.2)

/-- The number of chunks parked across all deferred queues: the
decreasing measure of the `while (madeProgress)` loops. -/
def totalQueued (tss : List (String × TableState)) : Nat :=
  (tss.map (fun p => p.2.queue.length)).sum

/-- The inner `while (madeProgress)` loop of `drainAllQueues`, fueled;
`totalQueued + 1` fuel never runs out because a pass that makes
progress strictly shrinks the queues. -/
def drainLoopFuel : Nat → List (String × TableState) → RefStore →
    List (String × TableState)
  | 0, tss, _ => tss
  | fuel + 1, tss, st =>
    let r := drainPass tss st
    if r.2 then drainLoopFuel fuel r.1 st else r.1

/-- `drainAllQueues` (seed.ts lines 238-268): run full passes until one
makes no change; report whether any pass made progress (equivalently,
whether the first one did). -/
def drainAllQueues (tss : List (String × TableState)) (st : RefStore) :
    List (String × TableState) × Bool :=
  let r := drainPass tss st
  if r.2 then (drainLoopFuel (totalQueued r.1 + 1) r.1 st, true) else (r.1, false)

/-- `drainAllQueues` lifted to the engine state (a no-op without a
scratch store, mirroring the `sqliteDb` guards at every call site). -/
def drainState (s : EngineState) : EngineState × Bool :=
  match s.store with
  | none => (s, false)
  | some st =>
    let r := drainAllQueues s.tableStates st
    ({ s with tableStates := r.1 }, r.2)

/-- `flushAllQueuesAfterDrain` (seed.ts lines 270-283): walk the tables
(key set fixed at entry), flush each whose batch reached its ceiling,
and drain again after each such flush. -/
def flushAllQueuesAfterDrain (cfg : SeederConfig) :
    List String → EngineState → Except String EngineState
  | [], s => Except.ok s
  | name :: rest, s =>
    match lookupAssoc s.tableStates name with
    | none => flushAllQueuesAfterDrain cfg rest s
    | some ts =>
      if ts.batch.length ≥ ts.batchSize then
        match flushTableInState cfg name s with
        | Except.error e => Except.error e
        | Except.ok s' => flushAllQueuesAfterDrain cfg rest (drainState s').1
      else flushAllQueuesAfterDrain cfg rest s

/-- The finalizer's "flush all remaining batches" walk (seed.ts lines
376-378 and 385-387). -/
def flushAllTables (cfg : SeederConfig) :
    List String → EngineState → Except String EngineState
  | [], s => Except.ok s
  | name :: rest, s =>
    match flushTableInState cfg name s with
    | Except.error e => Except.error e
    | Except.ok s' => flushAllTables cfg rest s'

/-- One diagnostic line of the circular-dependency report. -/
def unresolvedRefLine (tableName : String) (rowIndex : Nat) (r : RefData) : String :=
  tableName ++ "[" ++ toString rowIndex ++ "] → " ++ r.refTableName ++ "[" ++
    toString r.refRowIndex ++ "]." ++ r.refColumnName

/-- The `errors` array of `getUnresolvedRefsError` (seed.ts lines
285-299): one line per pending reference of every queued chunk of every
table. -/
def unresolvedRefLines (tss : List (String × TableState)) : List String :=
  tss.flatMap (fun p =>
    p.2.queue.flatMap (fun q =>
      q.pendingRefs.map (fun r => unresolvedRefLine p.1 q.rowIndex r)))

/-- `getUnresolvedRefsError` (seed.ts lines 285-299). -/
def getUnresolvedRefsError (tss : List (String × TableState)) : String :=
  "Failed to resolve refs (possible circular dependency):\n" ++
    String.intercalate "\n" (unresolvedRefLines tss)

/-- The stuck-item check of `execute` (seed.ts lines 391-396): throw
the full report when any table still has a queued chunk. -/
def checkStuck (tss : List (String × TableState)) : Except String Unit :=
  if tss.any (fun p => !p.2.queue.isEmpty) then
    Except.error (getUnresolvedRefsError tss)
  else Except.ok ()

/-- The state a table starts from on first sighting (seed.ts lines
326-337): empty batch and queue, and a batch ceiling computed once,
from the first chunk's column count. -/
def freshTableState (cfg : SeederConfig) (rc : RawChunk) : TableState :=
  { batch := [], queue := [], seededCount := 0, rowIndices := [],
    batchSize := getBatchSizeForTable cfg.maxParams rc.data.length,
    columnCount := rc.data.length }

/-- Table-state initialisation on first sighting (seed.ts lines
326-337). -/
def initTableState (cfg : SeederConfig) (s : EngineState) (rc : RawChunk) : EngineState :=
  match lookupAssoc s.tableStates rc.table with
  | some _ => s
  | none =>
    { s with
        tableStates := s.tableStates ++ [(rc.table, freshTableState cfg rc)],
        rowIndexByTable := s.rowIndexByTable ++ [(rc.table, 0)] }

/-- `tableState.batch.push(chunkData)` with its row index recorded in
lockstep (seed.ts lines 346-353). -/
def pushToBatch (ts : TableState) (c : Chunk) (rowIndex : Nat) : TableState :=
  { ts with batch := ts.batch ++ [c], rowIndices := ts.rowIndices ++ [rowIndex] }

/-- `tableState.queue.push(...)` (seed.ts lines 354-361). -/
def pushToQueue (ts : TableState) (c : Chunk) (rowIndex : Nat)
    (refs : List RefData) : TableState :=
  { ts with queue := ts.queue ++
      [{ chunk := c, rowIndex := rowIndex, pendingRefs := refs }] }

/-- The eligibility step for one incoming chunk (seed.ts lines 339-361):
assign the next row index, then append to the batch when there are no
references (or no refs config at all) or when every reference is
already resolved, otherwise park in the deferred queue. -/
def classifyChunk (cfg : SeederConfig) (s : EngineState) (rc : RawChunk) : EngineState :=
  let rowIndex := (lookupAssoc s.rowIndexByTable rc.table).getD 0
  let s := { s with rowIndexByTable := updateAssoc s.rowIndexByTable rc.table (rowIndex + 1) }
  match lookupAssoc s.tableStates rc.table with
  | none => s
  | some ts =>
    let refs := extractRefs rc.data
    let ts' :=
      if !cfg.hasRefs || refs.isEmpty then pushToBatch ts rc.data rowIndex
      else if areAllRefsResolved refs (s.store.getD []) then pushToBatch ts rc.data rowIndex
      else pushToQueue ts rc.data rowIndex refs
    { s with tableStates := updateAssoc s.tableStates rc.table ts' }

/-- The flush trigger after a chunk lands (seed.ts lines 363-372):
flush when the batch reached its ceiling, then drain all queues and
flush any batch the drain filled up. -/
def maybeFlushAfterConsume (cfg : SeederConfig) (tableName : String) (s : EngineState) :
    Except String EngineState :=
  match lookupAssoc s.tableStates tableName with
  | none => Except.ok s
  | some ts =>
    if ts.batch.length ≥ ts.batchSize then
      match flushTableInState cfg tableName s with
      | Except.error e => Except.error e
      | Except.ok s' =>
        if cfg.hasRefs && s'.store.isSome then
          flushAllQueuesAfterDrain cfg ((drainState s').1.tableStates.map Prod.fst)
            (drainState s').1
        else Except.ok s'
    else Except.ok s

/-- Consumption of one chunk from the generator stream. -/
def consumeChunk (cfg : SeederConfig) (s : EngineState) (rc : RawChunk) :
    Except String EngineState :=
  maybeFlushAfterConsume cfg rc.table (classifyChunk cfg (initTableState cfg s rc) rc)

/-- The stream-consumption loop of `execute` (seed.ts lines 319-373). -/
def consumeAll (cfg : SeederConfig) : EngineState → List RawChunk →
    Except String EngineState
  | s, [] => Except.ok s
  | s, rc :: rest =>
    match consumeChunk cfg s rc with
    | Except.error e => Except.error e
    | Except.ok s' => consumeAll cfg s' rest

/-- The finalizer's `while (madeProgress)` loop (seed.ts lines 380-389),
fueled: drain all queues, flush every table, and repeat while the drain
made progress. -/
def finalDrainFuel (cfg : SeederConfig) : Nat → EngineState → Except String EngineState
  | 0, s => Except.ok s
  | fuel + 1, s =>
    let r := drainState s
    match flushAllTables cfg (r.1.tableStates.map Prod.fst) r.1 with
    | Except.error e => Except.error e
    | Except.ok s' => if r.2 then finalDrainFuel cfg fuel s' else Except.ok s'

/-- The initial engine state: the scratch store is created only when
some table declares referenceable columns. -/
def initialState (cfg : SeederConfig) : EngineState :=
  { tableStates := [], rowIndexByTable := [],
    store := if cfg.hasRefs then some [] else none, inserts := [] }

/-- `execute` (seed.ts lines 301-400): consume the stream, flush all
remaining batches, run the final drain/flush loop to a fixpoint, and
fail if any chunk is still queued.  The returned state carries the log
of external bulk inserts. -/
def execute (cfg : SeederConfig) (stream : List RawChunk) : Except String EngineState :=
  match consumeAll cfg (initialState cfg) stream with
  | Except.error e => Except.error e
  | Except.ok s =>
    match flushAllTables cfg (s.tableStates.map Prod.fst) s with
    | Except.error e => Except.error e
    | Except.ok s =>
      match (if cfg.hasRefs && s.store.isSome then
               finalDrainFuel cfg (totalQueued s.tableStates + 1) s
             else Except.ok s) with
      | Except.error e => Except.error e
      | Except.ok s =>
        match checkStuck s.tableStates with
        | Except.error e => Except.error e
        | Except.ok _ => Except.ok s

/-! ## Specification views of the engine state -/

/-- The value of a successful run (the error branch is never used on
the runs it is applied to). -/
def exOk (e : Except String EngineState) : EngineState :=
  match e with
  | Except.ok s => s
  | Except.error _ => { tableStates := [], rowIndexByTable := [], store := none, inserts := [] }

/-- Pair each element with its sequence number, starting at `n`. -/
def numbered : Nat → List α → List (Nat × α)
  | _, [] => []
  | n, a :: as => (n, a) :: numbered (n + 1) as

/-- The sub-stream of chunks generated for one table, in stream order. -/
def tableStream (stream : List RawChunk) (t : String) : List Chunk :=
  (stream.filter (fun rc => rc.table == t)).map RawChunk.data

/-- The (row index, un-resolved chunk) pairs of one bulk-insert event. -/
def eventPairs (e : Insert) : List (Nat × Chunk) :=
  e.rowIndices.zip e.rawChunks

/-- All (row index, chunk) pairs already passed to the external bulk
insert for one table, in insertion order. -/
def flushedPairs (l : List Insert) (t : String) : List (Nat × Chunk) :=
  (l.map (fun e => if e.table == t then eventPairs e else [])).flatten

/-- All row indices already passed to the external bulk insert for one
table. -/
def flushedIdxs (l : List Insert) (t : String) : List Nat :=
  (l.map (fun e => if e.table == t then e.rowIndices else [])).flatten

/-- The (row index, chunk) pairs still held in one table's state:
its ready batch and its deferred queue. -/
def tsPairs (ts : TableState) : List (Nat × Chunk) :=
  ts.rowIndices.zip ts.batch ++ ts.queue.map (fun q => (q.rowIndex, q.chunk))

/-- The pairs still held for one table among the table states. -/
def tablePairs (tss : List (String × TableState)) (t : String) : List (Nat × Chunk) :=
  match lookupAssoc tss t with
  | none => []
  | some ts => tsPairs ts

/-- One table's ready batch, `[]` when the table was never sighted. -/
def batchOf (s : EngineState) (t : String) : List Chunk :=
  match lookupTS s t with
  | none => []
  | some ts => ts.batch

/-- One table's deferred queue, `[]` when the table was never sighted. -/
def queueOf (s : EngineState) (t : String) : List QueuedChunk :=
  match lookupTS s t with
  | none => []
  | some ts => ts.queue

/-- The next row index to be assigned for a table. -/
def rowIdxOf (s : EngineState) (t : String) : Nat :=
  (lookupAssoc s.rowIndexByTable t).getD 0

/-! ## Concrete configurations and streams used to exercise the engine -/

deriving instance DecidableEq for Except

/-- A two-row, no-refs run. -/
def w1cfg : SeederConfig :=
  { maxParams := 999, refsConfig := [], schema := ["users"] }

def w1rc : RawChunk := { table := "users", data := [("n", Val.plain (Plain.pint 1))] }

def w1stream : List RawChunk :=
  [w1rc, { table := "users", data := [("n", Val.plain (Plain.pint 2))] }]

/-- A books/reviews run with a declared referenceable column and a
plain-valued id. -/
def w2cfg : SeederConfig :=
  { maxParams := 999, refsConfig := [("books", ["id"])], schema := ["books", "reviews"] }

def w2ref : RefData :=
  { refTableName := "books", refRowIndex := 0, refColumnName := "id",
    transformFn := Transform.tid }

def w2bookChunk : Chunk := [("id", Val.plain (Plain.pint 1))]

def w2reviewChunk : Chunk := [("bookId", Val.ref w2ref)]

def w2stream : List RawChunk :=
  [{ table := "books", data := w2bookChunk },
   { table := "reviews", data := w2reviewChunk }]

def w2booksEvent : Insert :=
  { table := "books", rows := [w2bookChunk], rowIndices := [0],
    rawChunks := [w2bookChunk] }

def w2reviewsEvent : Insert :=
  { table := "reviews", rows := [[("bookId", Val.plain (Plain.pint 1))]],
    rowIndices := [0], rawChunks := [w2reviewChunk] }

/-- A run whose first `B` chunk has 500 columns (so `B`'s batch ceiling
is `floor(999/500) = 1`), with two `B` rows deferred behind `A[0]`. -/
def c3cfg : SeederConfig :=
  { maxParams := 999, refsConfig := [("A", ["id"])], schema := ["A", "B"] }

def c3ref : RefData :=
  { refTableName := "A", refRowIndex := 0, refColumnName := "id",
    transformFn := Transform.tid }

def c3bigChunk : Chunk :=
  ("r", Val.ref c3ref) ::
    (List.range 499).map (fun k => ("c" ++ toString k, Val.plain (Plain.pint 0)))

def c3stream : List RawChunk :=
  [{ table := "B", data := c3bigChunk },
   { table := "B", data := [("r", Val.ref c3ref)] },
   { table := "A", data := [("id", Val.plain (Plain.pint 7))] }]

/-- The spec's books/reviews scenario with an auto-generated id. -/
def c4cfg : SeederConfig :=
  { maxParams := 999, refsConfig := [("books", ["id"])], schema := ["books", "reviews"] }

def c4stream : List RawChunk :=
  [{ table := "books", data := [("id", Val.generated), ("title", Val.plain (Plain.pstr "a"))] },
   { table := "books", data := [("id", Val.generated), ("title", Val.plain (Plain.pstr "b"))] },
   { table := "reviews", data := [("bookId", Val.ref w2ref)] }]

/-- A direct 2-cycle: `A[0]` references `B[0].c` and vice versa. -/
def cycCfg : SeederConfig :=
  { maxParams := 999, refsConfig := [("A", ["c"]), ("B", ["c"])], schema := ["A", "B"] }

def cycStream : List RawChunk :=
  [{ table := "A",
     data := [("c", Val.plain (Plain.pint 1)),
              ("x", Val.ref { refTableName := "B", refRowIndex := 0,
                              refColumnName := "c", transformFn := Transform.tid })] },
   { table := "B",
     data := [("c", Val.plain (Plain.pint 2)),
              ("y", Val.ref { refTableName := "A", refRowIndex := 0,
                              refColumnName := "c", transformFn := Transform.tid })] }]

/-- An empty refs config with a streamed chunk holding a reference. -/
def c10cfg : SeederConfig :=
  { maxParams := 999, refsConfig := [], schema := ["notes"] }

def c10ref : RefData :=
  { refTableName := "books", refRowIndex := 5, refColumnName := "id",
    transformFn := Transform.tid }

def c10chunk : Chunk := [("bookId", Val.ref c10ref)]

def c10stream : List RawChunk := [{ table := "notes", data := c10chunk }]

/-- A stuck table-state list: one queued chunk with one pending ref. -/
def c5tss : List (String × TableState) :=
  [("notes",
    { batch := [], seededCount := 0, rowIndices := [], batchSize := 999, columnCount := 1,
      queue := [{ chunk := c10chunk, rowIndex := 0, pendingRefs := [c10ref] }] })]

/-- A one-row reference store. -/
def c6store : RefStore :=
  [{ table := "books", rowIndex := 0, cols := [("id", Val.plain (Plain.pint 7))] }]

/-- One queued chunk whose single reference is resolvable in `c6store`. -/
def c7tss : List (String × TableState) :=
  [("reviews",
    { batch := [], seededCount := 0, rowIndices := [], batchSize := 499, columnCount := 2,
      queue := [{ chunk := w2reviewChunk, rowIndex := 0, pendingRefs := [w2ref] }] })]

/-! ## Basic list lemmas -/

theorem numbered_append_singleton (n : Nat) (xs : List α) (c : α) :
    numbered n (xs ++ [c]) = numbered n xs ++ [(n + xs.length, c)] := by
  induction xs generalizing n with
  | nil => simp [numbered]
  | cons a as ih =>
    have h : n + 1 + as.length = n + (as.length + 1) := by omega
    show (n, a) :: numbered (n + 1) (as ++ [c]) =
      (n, a) :: numbered (n + 1) as ++ [(n + (as.length + 1), c)]
    rw [ih (n + 1), h]
    simp

theorem mapExcept_length {f : α → Except String β} :
    ∀ {l : List α} {ys : List β}, mapExcept f l = Except.ok ys → ys.length = l.length := by
  intro l
  induction l with
  | nil => intro ys h; simp [mapExcept] at h; simp [← h]
  | cons a as ih =>
    intro ys h
    simp only [mapExcept] at h
    cases hfa : f a with
    | error e => rw [hfa] at h; exact absurd h (by simp)
    | ok b =>
      rw [hfa] at h
      cases hrest : mapExcept f as with
      | error e => rw [hrest] at h; exact absurd h (by simp)
      | ok bs =>
        rw [hrest] at h
        cases h
        simp [ih hrest]

theorem mapExcept_mem {f : α → Except String β} :
    ∀ {l : List α} {ys : List β}, mapExcept f l = Except.ok ys →
      ∀ y ∈ ys, ∃ x ∈ l, f x = Except.ok y := by
  intro l
  induction l with
  | nil =>
    intro ys h
    simp [mapExcept] at h
    subst h
    intro y hy
    cases hy
  | cons a as ih =>
    intro ys h
    simp only [mapExcept] at h
    cases hfa : f a with
    | error e => rw [hfa] at h; exact absurd h (by simp)
    | ok b =>
      rw [hfa] at h
      cases hrest : mapExcept f as with
      | error e => rw [hrest] at h; exact absurd h (by simp)
      | ok bs =>
        rw [hrest] at h
        cases h
        intro y hy
        rcases List.mem_cons.mp hy with h1 | h2
        · exact ⟨a, List.mem_cons_self a as, by rw [hfa, h1]⟩
        · rcases ih hrest y h2 with ⟨x, hx, hfx⟩
          exact ⟨x, List.mem_cons_of_mem a hx, hfx⟩

theorem mapExcept_ok_of_forall {f : α → Except String β} :
    ∀ {l : List α} {ys : List β}, mapExcept f l = Except.ok ys →
      ∀ x ∈ l, ∃ y, f x = Except.ok y := by
  intro l
  induction l with
  | nil => intro ys _ x hx; cases hx
  | cons a as ih =>
    intro ys h x hx
    simp only [mapExcept] at h
    cases hfa : f a with
    | error e => rw [hfa] at h; exact absurd h (by simp)
    | ok b =>
      rw [hfa] at h
      cases hrest : mapExcept f as with
      | error e => rw [hrest] at h; exact absurd h (by simp)
      | ok bs =>
        rcases List.mem_cons.mp hx with h1 | h2
        · exact ⟨b, by rw [h1, hfa]⟩
        · exact ih hrest x h2

/-- Decompose a split of `l ++ [a]` into "the split point is inside
`l`" or "the singled-out element is `a` itself". -/
theorem append_singleton_split {l pre post : List α} {e a : α}
    (h : l ++ [a] = pre ++ e :: post) :
    (post = [] ∧ e = a ∧ pre = l) ∨
      (∃ post2, post = post2 ++ [a] ∧ l = pre ++ e :: post2) := by
  induction pre generalizing l with
  | nil =>
    cases l with
    | nil =>
      simp only [List.nil_append] at h
      injection h with h1 h2
      exact Or.inl ⟨h2.symm, h1.symm, rfl⟩
    | cons b bs =>
      simp only [List.nil_append, List.cons_append] at h
      injection h with h1 h2
      exact Or.inr ⟨bs, h2.symm, by simp [← h1]⟩
  | cons p ps ih =>
    cases l with
    | nil => simp at h
    | cons b bs =>
      rw [List.cons_append, List.cons_append] at h
      injection h with h1 h2
      subst h1
      rcases ih h2 with ⟨hp, he, hps⟩ | ⟨post2, hp, hbs⟩
      · exact Or.inl ⟨hp, he, by rw [hps]⟩
      · exact Or.inr ⟨post2, hp, by simp [hbs]⟩

/-! ## Ordered-map lemmas -/

theorem lookupAssoc_cons (x : String × α) (xs : List (String × α)) (k : String) :
    lookupAssoc (x :: xs) k = if x.1 == k then some x.2 else lookupAssoc xs k := by
  simp only [lookupAssoc, List.find?]
  cases h : (x.1 == k) <;> simp [h]

theorem lookupAssoc_updateAssoc_self (xs : List (String × α)) (k : String) (v : α) :
    lookupAssoc (updateAssoc xs k v) k = some v := by
  induction xs with
  | nil => simp [updateAssoc, lookupAssoc_cons]
  | cons x xs ih =>
    obtain ⟨a, b⟩ := x
    by_cases h : a = k
    · simp [updateAssoc, h, lookupAssoc_cons]
    · simp [updateAssoc, lookupAssoc_cons, h, ih]

theorem lookupAssoc_updateAssoc_ne (xs : List (String × α)) (k k' : String) (v : α)
    (h : k' ≠ k) : lookupAssoc (updateAssoc xs k v) k' = lookupAssoc xs k' := by
  induction xs with
  | nil => simp [updateAssoc, lookupAssoc_cons, lookupAssoc, Ne.symm h]
  | cons x xs ih =>
    obtain ⟨a, b⟩ := x
    by_cases hak : a = k
    · subst hak
      simp [updateAssoc, lookupAssoc_cons, Ne.symm h, fun hc : a = k' => h (hc ▸ rfl)]
    · by_cases hak' : a = k'
      · simp [updateAssoc, hak, lookupAssoc_cons, hak', h]
      · simp [updateAssoc, hak, lookupAssoc_cons, hak', ih, h]

theorem updateAssoc_keys (xs : List (String × α)) (k : String) (v : α)
    (h : lookupAssoc xs k ≠ none) :
    (updateAssoc xs k v).map Prod.fst = xs.map Prod.fst := by
  induction xs with
  | nil => simp [lookupAssoc] at h
  | cons x xs ih =>
    obtain ⟨a, b⟩ := x
    by_cases hak : a = k
    · simp [updateAssoc, hak]
    · rw [lookupAssoc_cons] at h
      simp only [show ((a, b).1 == k) = false from by simpa using hak,
        Bool.false_eq_true, if_false] at h
      simp [updateAssoc, hak, ih h]

theorem updateAssoc_self_eq (xs : List (String × α)) (k : String) (v : α)
    (h : lookupAssoc xs k = some v) : updateAssoc xs k v = xs := by
  induction xs with
  | nil => simp [lookupAssoc] at h
  | cons x xs ih =>
    obtain ⟨a, b⟩ := x
    rw [lookupAssoc_cons] at h
    by_cases hak : a = k
    · simp only [show ((a, b).1 == k) = true from by simpa using hak, if_pos rfl] at h
      cases h
      simp [updateAssoc, hak]
    · simp only [show ((a, b).1 == k) = false from by simpa using hak,
        Bool.false_eq_true, if_false] at h
      simp [updateAssoc, hak, ih h]

theorem lookupAssoc_append_some (xs ys : List (String × α)) (k : String) (w : α)
    (h : lookupAssoc xs k = some w) : lookupAssoc (xs ++ ys) k = some w := by
  induction xs with
  | nil => simp [lookupAssoc] at h
  | cons x xs ih =>
    rw [List.cons_append, lookupAssoc_cons]
    rw [lookupAssoc_cons] at h
    cases hx : (x.1 == k) with
    | true => rw [hx] at h; simpa using h
    | false => rw [hx] at h; simp only [Bool.false_eq_true, if_false] at h ⊢; exact ih h

theorem lookupAssoc_append_none (xs ys : List (String × α)) (k : String)
    (h : lookupAssoc xs k = none) : lookupAssoc (xs ++ ys) k = lookupAssoc ys k := by
  induction xs with
  | nil => simp
  | cons x xs ih =>
    rw [lookupAssoc_cons] at h
    rw [List.cons_append, lookupAssoc_cons]
    cases hx : (x.1 == k) with
    | true => rw [hx] at h; simp at h
    | false => rw [hx] at h; simp only [Bool.false_eq_true, if_false] at h ⊢; exact ih h

theorem lookupAssoc_mem (xs : List (String × α)) (k : String) (v : α)
    (h : lookupAssoc xs k = some v) : (k, v) ∈ xs := by
  induction xs with
  | nil => simp [lookupAssoc] at h
  | cons x xs ih =>
    rw [lookupAssoc_cons] at h
    cases hx : (x.1 == k) with
    | true =>
      rw [hx] at h
      simp only [if_pos rfl] at h
      cases h
      have hk : x.1 = k := by simpa using hx
      exact List.mem_cons.mpr (Or.inl (by cases x; simp at hk; simp [hk]))
    | false =>
      rw [hx] at h
      simp only [Bool.false_eq_true, if_false] at h
      exact List.mem_cons.mpr (Or.inr (ih h))

theorem lookupAssoc_mem_keys (xs : List (String × α)) (k : String) (v : α)
    (h : lookupAssoc xs k = some v) : k ∈ xs.map Prod.fst := by
  exact List.mem_map.mpr ⟨(k, v), lookupAssoc_mem xs k v h, rfl⟩

/-! ## Drain lemmas -/

theorem drainTable_queue (ts : TableState) (st : RefStore) :
    (drainTable ts st).1.queue =
      ts.queue.filter (fun q => !areAllRefsResolved q.pendingRefs st) := by
  simp [drainTable, List.partition_eq_filter_filter, Function.comp_def]

theorem drainTable_batch (ts : TableState) (st : RefStore) :
    (drainTable ts st).1.batch =
      ts.batch ++
        (ts.queue.filter (fun q => areAllRefsResolved q.pendingRefs st)).map
          QueuedChunk.chunk := by
  simp [drainTable, List.partition_eq_filter_filter]

theorem drainTable_rowIndices (ts : TableState) (st : RefStore) :
    (drainTable ts st).1.rowIndices =
      ts.rowIndices ++
        (ts.queue.filter (fun q => areAllRefsResolved q.pendingRefs st)).map
          QueuedChunk.rowIndex := by
  simp [drainTable, List.partition_eq_filter_filter]

theorem drainTable_const (ts : TableState) (st : RefStore) :
    (drainTable ts st).1.seededCount = ts.seededCount ∧
      (drainTable ts st).1.batchSize = ts.batchSize ∧
      (drainTable ts st).1.columnCount = ts.columnCount := by
  simp [drainTable]

theorem drainTable_snd (ts : TableState) (st : RefStore) :
    (drainTable ts st).2 =
      !(ts.queue.filter (fun q => areAllRefsResolved q.pendingRefs st)).isEmpty := by
  simp [drainTable, List.partition_eq_filter_filter]

theorem drainTable_id_of_no_progress (ts : TableState) (st : RefStore)
    (h : (drainTable ts st).2 = false) : (drainTable ts st).1 = ts := by
  rw [drainTable_snd] at h
  have hnil : ts.queue.filter (fun q => areAllRefsResolved q.pendingRefs st) = [] := by
    simpa using h
  have hall := List.filter_eq_nil_iff.mp hnil
  have hq : ts.queue.filter (fun q => !areAllRefsResolved q.pendingRefs st) = ts.queue :=
    List.filter_eq_self.mpr (fun a ha => by simp [hall a ha])
  obtain ⟨b, q, sc, ri, bs, cc⟩ := ts
  simp only [drainTable, List.partition_eq_filter_filter, Function.comp_def] at *
  simp [hnil, hq]

theorem filter_not_length_lt {p : α → Bool} {l : List α} (h : l.filter p ≠ []) :
    (l.filter (fun a => !p a)).length < l.length := by
  induction l with
  | nil => simp at h
  | cons a as ih =>
    by_cases hpa : p a = true
    · have hle := List.length_filter_le (fun a => !p a) as
      have heq : List.filter (fun a => !p a) (a :: as) = List.filter (fun a => !p a) as := by
        simp [List.filter_cons, hpa]
      rw [heq]
      simp only [List.length_cons]
      omega
    · have hpa' : p a = false := by simpa using hpa
      have hne : as.filter p ≠ [] := by
        intro hc
        apply h
        simp [List.filter_cons, hpa', hc]
      have hlt := ih hne
      have heq : List.filter (fun a => !p a) (a :: as) = a :: List.filter (fun a => !p a) as := by
        simp [List.filter_cons, hpa']
      rw [heq]
      simp only [List.length_cons]
      omega

theorem drainTable_queue_lt_of_progress (ts : TableState) (st : RefStore)
    (h : (drainTable ts st).2 = true) :
    (drainTable ts st).1.queue.length < ts.queue.length := by
  rw [drainTable_snd] at h
  rw [drainTable_queue]
  exact filter_not_length_lt (by simpa using h)

theorem drainTable_queue_le (ts : TableState) (st : RefStore) :
    (drainTable ts st).1.queue.length ≤ ts.queue.length := by
  rw [drainTable_queue]
  exact List.length_filter_le _ _

theorem drainPass_keys (tss : List (String × TableState)) (st : RefStore) :
    ((drainPass tss st).1).map Prod.fst = tss.map Prod.fst := by
  induction tss with
  | nil => simp [drainPass]
  | cons x rest ih => cases x; simp [drainPass, ih]

theorem drainPass_lookup (tss : List (String × TableState)) (st : RefStore) (k : String) :
    lookupAssoc (drainPass tss st).1 k =
      (lookupAssoc tss k).map (fun ts => (drainTable ts st).1) := by
  induction tss with
  | nil => simp [drainPass, lookupAssoc]
  | cons x rest ih =>
    cases x with
    | mk name ts =>
      simp only [drainPass, lookupAssoc_cons]
      cases h : (name == k) with
      | true => simp
      | false => simpa using ih

theorem drainPass_id_of_no_progress (tss : List (String × TableState)) (st : RefStore)
    (h : (drainPass tss st).2 = false) : (drainPass tss st).1 = tss := by
  induction tss with
  | nil => simp [drainPass]
  | cons x rest ih =>
    cases x with
    | mk name ts =>
      simp only [drainPass] at h ⊢
      have h1 : (drainTable ts st).2 = false := by
        cases h2 : (drainTable ts st).2 <;> simp [h2] at h ⊢
      have h2 : (drainPass rest st).2 = false := by
        cases h3 : (drainPass rest st).2 <;> simp [h1, h3] at h ⊢
      simp [drainTable_id_of_no_progress ts st h1, ih h2]

theorem drainPass_totalQueued_le (tss : List (String × TableState)) (st : RefStore) :
    totalQueued (drainPass tss st).1 ≤ totalQueued tss := by
  induction tss with
  | nil => simp [drainPass]
  | cons x rest ih =>
    cases x with
    | mk name ts =>
      simp only [drainPass, totalQueued, List.map_cons, List.sum_cons]
      have h1 := drainTable_queue_le ts st
      have h2 : totalQueued (drainPass rest st).1 ≤ totalQueued rest := ih
      simp only [totalQueued] at h2
      omega

theorem drainPass_totalQueued_lt (tss : List (String × TableState)) (st : RefStore)
    (h : (drainPass tss st).2 = true) :
    totalQueued (drainPass tss st).1 < totalQueued tss := by
  induction tss with
  | nil => simp [drainPass] at h
  | cons x rest ih =>
    cases x with
    | mk name ts =>
      simp only [drainPass] at h
      simp only [drainPass, totalQueued, List.map_cons, List.sum_cons]
      rcases Bool.or_eq_true_iff.mp h with h1 | h2
      · have := drainTable_queue_lt_of_progress ts st h1
        have h2 := drainPass_totalQueued_le rest st
        simp only [totalQueued] at h2
        omega
      · have := ih h2
        have h1 := drainTable_queue_le ts st
        simp only [totalQueued] at this
        omega

theorem drainLoopFuel_fix (st : RefStore) :
    ∀ (fuel : Nat) (tss : List (String × TableState)), totalQueued tss < fuel →
      drainPass (drainLoopFuel fuel tss st) st = (drainLoopFuel fuel tss st, false) := by
  intro fuel
  induction fuel with
  | zero => intro tss h; omega
  | succ n ih =>
    intro tss h
    simp only [drainLoopFuel]
    cases hp : (drainPass tss st).2 with
    | true =>
      simp only [if_pos rfl]
      exact ih (drainPass tss st).1
        (by have := drainPass_totalQueued_lt tss st hp; omega)
    | false =>
      simp only [Bool.false_eq_true, if_false]
      rw [drainPass_id_of_no_progress tss st hp]
      have : drainPass tss st = ((drainPass tss st).1, (drainPass tss st).2) := rfl
      rw [drainPass_id_of_no_progress tss st hp] at this
      rw [hp] at this
      exact this

theorem drainAllQueues_fst_fix (tss : List (String × TableState)) (st : RefStore) :
    drainPass (drainAllQueues tss st).1 st = ((drainAllQueues tss st).1, false) := by
  simp only [drainAllQueues]
  cases hp : (drainPass tss st).2 with
  | true =>
    simp only [if_pos rfl]
    exact drainLoopFuel_fix st _ _ (by omega)
  | false =>
    simp only [Bool.false_eq_true, if_false]
    rw [drainPass_id_of_no_progress tss st hp]
    have : drainPass tss st = ((drainPass tss st).1, (drainPass tss st).2) := rfl
    rw [drainPass_id_of_no_progress tss st hp] at this
    rw [hp] at this
    exact this

/-! ## Flush lemmas -/

theorem flushTable_empty (cfg : SeederConfig) (t : String) (ts : TableState)
    (store : Option RefStore) (h : ts.batch = []) :
    flushTable cfg t ts store = Except.ok (ts, store, none) := by
  simp [flushTable, h]

/-- Inversion of a successful `flushTable`. -/
theorem flushTable_ok_inv {cfg : SeederConfig} {t : String} {ts ts' : TableState}
    {store store' : Option RefStore} {ins? : Option Insert}
    (h : flushTable cfg t ts store = Except.ok (ts', store', ins?)) :
    (ts.batch = [] ∧ ts' = ts ∧ store' = store ∧ ins? = none) ∨
      (ts.batch ≠ [] ∧ ∃ resolvedBatch,
        mapExcept (fun c => resolveChunk c store) ts.batch = Except.ok resolvedBatch ∧
        recordRefs cfg t ts store = Except.ok store' ∧
        ts' = { ts with batch := [], rowIndices := [],
                        seededCount := ts.seededCount + ts.batch.length } ∧
        ins? = some { table := t, rows := resolvedBatch,
                      rowIndices := ts.rowIndices, rawChunks := ts.batch }) := by
  by_cases hb : ts.batch = []
  · rw [flushTable_empty cfg t ts store hb] at h
    cases h
    exact Or.inl ⟨hb, rfl, rfl, rfl⟩
  · right
    refine ⟨hb, ?_⟩
    simp only [flushTable, List.isEmpty_iff, hb, if_false] at h
    cases hc : (!cfg.schema.contains t) with
    | true => rw [hc] at h; simp at h
    | false =>
      rw [hc] at h
      simp only [Bool.false_eq_true, if_false] at h
      cases hm : mapExcept (fun c => resolveChunk c store) ts.batch with
      | error e => rw [hm] at h; simp at h
      | ok resolvedBatch =>
        rw [hm] at h
        cases hr : recordRefs cfg t ts store with
        | error e => rw [hr] at h; simp at h
        | ok st2 =>
          rw [hr] at h
          cases h
          exact ⟨resolvedBatch, rfl, rfl, rfl, rfl⟩

theorem recordRefs_none (cfg : SeederConfig) (t : String) (ts : TableState) :
    recordRefs cfg t ts none = Except.ok none := rfl

/-- Inversion of a successful `recordRefs` on a live store: the store
grows by rows that all carry the flushed table's name and one of the
flushed row indices. -/
theorem recordRefs_some_inv {cfg : SeederConfig} {t : String} {ts : TableState}
    {st : RefStore} {store' : Option RefStore}
    (h : recordRefs cfg t ts (some st) = Except.ok store') :
    ∃ rows, store' = some (st ++ rows) ∧
      ∀ row ∈ rows, row.table = t ∧ row.rowIndex ∈ ts.rowIndices := by
  simp only [recordRefs] at h
  split at h
  · cases h
    exact ⟨[], by simp, by simp⟩
  · split at h
    · cases h
      exact ⟨[], by simp, by simp⟩
    · split at h
      · simp at h
      · rename_i rows hm
        cases h
        refine ⟨rows, rfl, ?_⟩
        intro row hrow
        rcases mapExcept_mem hm row hrow with ⟨p, hp, hfp⟩
        split at hfp
        · simp at hfp
        · cases hfp
          exact ⟨rfl, (List.of_mem_zip hp).2⟩

theorem recordRefs_isSome {cfg : SeederConfig} {t : String} {ts : TableState}
    {store store' : Option RefStore}
    (h : recordRefs cfg t ts store = Except.ok store') : store'.isSome = store.isSome := by
  cases store with
  | none => rw [recordRefs_none] at h; cases h; rfl
  | some st => rcases recordRefs_some_inv h with ⟨rows, hrows, _⟩; simp [hrows]

theorem storeFind_append_some {st : RefStore} {t : String} {i : Nat} {r : List (String × Val)}
    (rows : RefStore) (h : storeFind st t i = some r) :
    storeFind (st ++ rows) t i = some r := by
  simp only [storeFind] at h ⊢
  cases hf : st.find? (fun row => row.table == t && row.rowIndex == i) with
  | none => rw [hf] at h; simp at h
  | some row =>
    rw [hf] at h
    rw [List.find?_append, hf]
    simpa using h

theorem refExists_append {ρ : RefData} {st : RefStore} (rows : RefStore)
    (h : refExists ρ st = true) : refExists ρ (st ++ rows) = true := by
  simp only [refExists, Option.isSome_iff_exists] at h ⊢
  rcases h with ⟨r, hr⟩
  exact ⟨r, storeFind_append_some rows hr⟩

theorem resolveChunk_none_ok_no_refs :
    ∀ {c : Chunk} {r : Chunk}, resolveChunk c none = Except.ok r → extractRefs c = [] := by
  intro c
  induction c with
  | nil => intro r _; rfl
  | cons p rest ih =>
    intro r h
    obtain ⟨k, v⟩ := p
    cases v with
    | ref rd => simp [resolveChunk] at h
    | generated =>
      simp only [resolveChunk] at h
      simpa [extractRefs, List.filterMap_cons] using ih h
    | plain pv =>
      simp only [resolveChunk] at h
      cases hrest : resolveChunk rest none with
      | error e => rw [hrest] at h; simp at h
      | ok tail => simpa [extractRefs, List.filterMap_cons] using ih hrest
    | undef =>
      simp only [resolveChunk] at h
      cases hrest : resolveChunk rest none with
      | error e => rw [hrest] at h; simp at h
      | ok tail => simpa [extractRefs, List.filterMap_cons] using ih hrest

theorem resolveChunk_none_error_of_ref :
    ∀ {c : Chunk}, (∃ p ∈ c, isColumnValueReference p.2 = true) →
      ∃ ρ ∈ extractRefs c, resolveChunk c none = Except.error (cannotResolveRefMsg ρ) := by
  intro c
  induction c with
  | nil => intro ⟨p, hp, _⟩; cases hp
  | cons p rest ih =>
    intro h
    obtain ⟨k, v⟩ := p
    cases v with
    | ref rd =>
      exact ⟨rd, by simp [extractRefs, List.filterMap_cons], by simp [resolveChunk]⟩
    | generated =>
      rcases h with ⟨q, hq, hcvr⟩
      rcases List.mem_cons.mp hq with h1 | h2
      · rw [h1] at hcvr; simp [isColumnValueReference] at hcvr
      · rcases ih ⟨q, h2, hcvr⟩ with ⟨ρ, hρ, herr⟩
        exact ⟨ρ, by simp [extractRefs, List.filterMap_cons] at hρ ⊢; exact hρ,
          by simp [resolveChunk, herr]⟩
    | plain pv =>
      rcases h with ⟨q, hq, hcvr⟩
      rcases List.mem_cons.mp hq with h1 | h2
      · rw [h1] at hcvr; simp [isColumnValueReference] at hcvr
      · rcases ih ⟨q, h2, hcvr⟩ with ⟨ρ, hρ, herr⟩
        refine ⟨ρ, by simp [extractRefs, List.filterMap_cons] at hρ ⊢; exact hρ, ?_⟩
        simp only [resolveChunk, herr]
    | undef =>
      rcases h with ⟨q, hq, hcvr⟩
      rcases List.mem_cons.mp hq with h1 | h2
      · rw [h1] at hcvr; simp [isColumnValueReference] at hcvr
      · rcases ih ⟨q, h2, hcvr⟩ with ⟨ρ, hρ, herr⟩
        refine ⟨ρ, by simp [extractRefs, List.filterMap_cons] at hρ ⊢; exact hρ, ?_⟩
        simp only [resolveChunk, herr]

/-! ## State-level flush and drain lemmas -/

theorem totalQueued_updateAssoc (tss : List (String × TableState)) (k : String)
    (ts v : TableState) (hl : lookupAssoc tss k = some ts)
    (hq : v.queue.length = ts.queue.length) :
    totalQueued (updateAssoc tss k v) = totalQueued tss := by
  induction tss with
  | nil => simp [lookupAssoc] at hl
  | cons x xs ih =>
    obtain ⟨a, b⟩ := x
    rw [lookupAssoc_cons] at hl
    by_cases hak : a = k
    · have hupd : updateAssoc ((a, b) :: xs) k v = (k, v) :: xs := by
        simp [updateAssoc, hak]
      simp only [show ((a, b).1 == k) = true from by simpa using hak, if_pos rfl] at hl
      cases hl
      rw [hupd]
      simp [totalQueued, hq]
    · have hupd : updateAssoc ((a, b) :: xs) k v = (a, b) :: updateAssoc xs k v := by
        simp [updateAssoc, hak]
      simp only [show ((a, b).1 == k) = false from by simpa using hak,
        Bool.false_eq_true, if_false] at hl
      rw [hupd]
      simp only [totalQueued, List.map_cons, List.sum_cons]
      have hih := ih hl
      simp only [totalQueued] at hih
      rw [hih]

/-- Inversion of a successful `flushTableInState`. -/
theorem flushTableInState_ok_inv {cfg : SeederConfig} {t0 : String} {s s' : EngineState}
    (h : flushTableInState cfg t0 s = Except.ok s') :
    (lookupAssoc s.tableStates t0 = none ∧ s' = s) ∨
      (∃ ts ts' store' ins?, lookupAssoc s.tableStates t0 = some ts ∧
        flushTable cfg t0 ts s.store = Except.ok (ts', store', ins?) ∧
        s' = { s with tableStates := updateAssoc s.tableStates t0 ts',
                      store := store', inserts := s.inserts ++ ins?.toList }) := by
  simp only [flushTableInState] at h
  split at h
  · cases h; exact Or.inl ⟨by assumption, rfl⟩
  · rename_i ts hts
    split at h
    · simp at h
    · rename_i ts' store' ins hft
      cases h
      exact Or.inr ⟨ts, ts', store', ins, hts, hft, rfl⟩

/-- What one state-level flush preserves. -/
theorem flushTableInState_pres {cfg : SeederConfig} {t0 : String} {s s' : EngineState}
    (h : flushTableInState cfg t0 s = Except.ok s') :
    s'.rowIndexByTable = s.rowIndexByTable ∧
      s'.tableStates.map Prod.fst = s.tableStates.map Prod.fst ∧
      s'.store.isSome = s.store.isSome ∧
      totalQueued s'.tableStates = totalQueued s.tableStates ∧
      (∀ t, queueOf s' t = queueOf s t) ∧
      (∀ t, t ≠ t0 → lookupTS s' t = lookupTS s t) ∧
      (∀ ts2, lookupTS s' t0 = some ts2 → ts2.batch = []) := by
  rcases flushTableInState_ok_inv h with ⟨hnone, rfl⟩ |
    ⟨ts, ts', store', ins?, hts, hft, rfl⟩
  · refine ⟨rfl, rfl, rfl, rfl, fun t => rfl, fun t _ => rfl, ?_⟩
    intro ts2 hts2
    simp only [lookupTS, hnone] at hts2
    cases hts2
  · have hq : ts'.queue = ts.queue := by
      rcases flushTable_ok_inv hft with ⟨_, rfl, _, _⟩ | ⟨_, _, _, _, rfl, _⟩ <;> rfl
    have hbatch : ts'.batch = [] ∨ ts' = ts := by
      rcases flushTable_ok_inv hft with ⟨hb, rfl, _, _⟩ | ⟨_, _, _, _, rfl, _⟩
      · exact Or.inr rfl
      · exact Or.inl rfl
    have hstore : store'.isSome = s.store.isSome := by
      rcases flushTable_ok_inv hft with ⟨_, _, rfl, _⟩ | ⟨_, _, _, hr, _, _⟩
      · rfl
      · exact recordRefs_isSome hr
    refine ⟨rfl, updateAssoc_keys _ _ _ (by simp [hts]), hstore,
      totalQueued_updateAssoc _ _ ts ts' hts (by rw [hq]), ?_, ?_, ?_⟩
    · intro t
      by_cases ht : t = t0
      · subst ht
        simp only [queueOf, lookupTS, lookupAssoc_updateAssoc_self, hts, hq]
      · simp only [queueOf, lookupTS, lookupAssoc_updateAssoc_ne _ _ _ _ ht]
    · intro t ht
      simp only [lookupTS, lookupAssoc_updateAssoc_ne _ _ _ _ ht]
    · intro ts2 hts2
      simp only [lookupTS, lookupAssoc_updateAssoc_self] at hts2
      cases hts2
      rcases hbatch with hb | rfl
      · exact hb
      · rcases flushTable_ok_inv hft with ⟨hb, _, _, _⟩ | ⟨_, _, _, _, heq, _⟩
        · exact hb
        · have := congrArg TableState.batch heq
          simpa using this

theorem flushTableInState_pres_batch_empty {cfg : SeederConfig} {t0 t : String}
    {s s' : EngineState} (h : flushTableInState cfg t0 s = Except.ok s')
    (hpre : ∀ ts2, lookupTS s t = some ts2 → ts2.batch = []) :
    ∀ ts2, lookupTS s' t = some ts2 → ts2.batch = [] := by
  by_cases ht : t = t0
  · subst ht
    exact (flushTableInState_pres h).2.2.2.2.2.2
  · intro ts2 hts2
    rw [(flushTableInState_pres h).2.2.2.2.2.1 t ht] at hts2
    exact hpre ts2 hts2

/-- What the finalizer's flush-everything walk preserves. -/
theorem flushAllTables_pres {cfg : SeederConfig} :
    ∀ {names : List String} {s s' : EngineState},
      flushAllTables cfg names s = Except.ok s' →
      s'.rowIndexByTable = s.rowIndexByTable ∧
        s'.tableStates.map Prod.fst = s.tableStates.map Prod.fst ∧
        s'.store.isSome = s.store.isSome ∧
        totalQueued s'.tableStates = totalQueued s.tableStates ∧
        (∀ t, queueOf s' t = queueOf s t) := by
  intro names
  induction names with
  | nil =>
    intro s s' h
    cases h
    exact ⟨rfl, rfl, rfl, rfl, fun t => rfl⟩
  | cons n rest ih =>
    intro s s' h
    simp only [flushAllTables] at h
    split at h
    · simp at h
    · rename_i s1 h1
      have p1 := flushTableInState_pres h1
      have p2 := ih h
      exact ⟨p2.1.trans p1.1, p2.2.1.trans p1.2.1, p2.2.2.1.trans p1.2.2.1,
        p2.2.2.2.1.trans p1.2.2.2.1,
        fun t => (p2.2.2.2.2 t).trans (p1.2.2.2.2.1 t)⟩

theorem flushAllTables_pres_batch_empty {cfg : SeederConfig} :
    ∀ {names : List String} {s s' : EngineState} {t : String},
      flushAllTables cfg names s = Except.ok s' →
      (∀ ts2, lookupTS s t = some ts2 → ts2.batch = []) →
      ∀ ts2, lookupTS s' t = some ts2 → ts2.batch = [] := by
  intro names
  induction names with
  | nil => intro s s' t h hpre; cases h; exact hpre
  | cons n rest ih =>
    intro s s' t h hpre
    simp only [flushAllTables] at h
    split at h
    · simp at h
    · rename_i s1 h1
      exact ih h (flushTableInState_pres_batch_empty h1 hpre)

theorem flushAllTables_batch_empty {cfg : SeederConfig} :
    ∀ {names : List String} {s s' : EngineState},
      flushAllTables cfg names s = Except.ok s' →
      ∀ t ∈ names, ∀ ts2, lookupTS s' t = some ts2 → ts2.batch = [] := by
  intro names
  induction names with
  | nil => intro s s' _ t ht; cases ht
  | cons n rest ih =>
    intro s s' h t ht
    simp only [flushAllTables] at h
    split at h
    · simp at h
    · rename_i s1 h1
      rcases List.mem_cons.mp ht with rfl | hrest
      · exact flushAllTables_pres_batch_empty h
          ((flushTableInState_pres h1).2.2.2.2.2.2)
      · exact ih h t hrest

theorem drainLoopFuel_totalQueued_le (st : RefStore) :
    ∀ (fuel : Nat) (tss : List (String × TableState)),
      totalQueued (drainLoopFuel fuel tss st) ≤ totalQueued tss := by
  intro fuel
  induction fuel with
  | zero => intro tss; simp [drainLoopFuel]
  | succ n ih =>
    intro tss
    simp only [drainLoopFuel]
    cases hp : (drainPass tss st).2 with
    | true =>
      simp only [if_pos rfl]
      exact le_trans (ih (drainPass tss st).1) (drainPass_totalQueued_le tss st)
    | false =>
      simp only [Bool.false_eq_true, if_false]
      exact drainPass_totalQueued_le tss st

theorem drainAllQueues_totalQueued_le (tss : List (String × TableState)) (st : RefStore) :
    totalQueued (drainAllQueues tss st).1 ≤ totalQueued tss := by
  simp only [drainAllQueues]
  cases hp : (drainPass tss st).2 with
  | true =>
    simp only [if_pos rfl]
    exact le_trans (drainLoopFuel_totalQueued_le st _ _) (drainPass_totalQueued_le tss st)
  | false =>
    simp only [Bool.false_eq_true, if_false]
    exact drainPass_totalQueued_le tss st

theorem drainAllQueues_totalQueued_lt (tss : List (String × TableState)) (st : RefStore)
    (h : (drainAllQueues tss st).2 = true) :
    totalQueued (drainAllQueues tss st).1 < totalQueued tss := by
  simp only [drainAllQueues] at h ⊢
  cases hp : (drainPass tss st).2 with
  | true =>
    simp only [if_pos rfl]
    exact lt_of_le_of_lt (drainLoopFuel_totalQueued_le st _ _)
      (drainPass_totalQueued_lt tss st hp)
  | false => rw [hp] at h; simp at h

theorem drainLoopFuel_keys (st : RefStore) :
    ∀ (fuel : Nat) (tss : List (String × TableState)),
      (drainLoopFuel fuel tss st).map Prod.fst = tss.map Prod.fst := by
  intro fuel
  induction fuel with
  | zero => intro tss; simp [drainLoopFuel]
  | succ n ih =>
    intro tss
    simp only [drainLoopFuel]
    cases hp : (drainPass tss st).2 with
    | true =>
      simp only [if_pos rfl]
      exact (ih (drainPass tss st).1).trans (drainPass_keys tss st)
    | false =>
      simp only [Bool.false_eq_true, if_false]
      exact drainPass_keys tss st

theorem drainAllQueues_keys (tss : List (String × TableState)) (st : RefStore) :
    (drainAllQueues tss st).1.map Prod.fst = tss.map Prod.fst := by
  simp only [drainAllQueues]
  cases hp : (drainPass tss st).2 with
  | true =>
    simp only [if_pos rfl]
    exact (drainLoopFuel_keys st _ _).trans (drainPass_keys tss st)
  | false =>
    simp only [Bool.false_eq_true, if_false]
    exact drainPass_keys tss st

theorem drainState_parts (s : EngineState) :
    (drainState s).1.rowIndexByTable = s.rowIndexByTable ∧
      (drainState s).1.store = s.store ∧
      (drainState s).1.inserts = s.inserts ∧
      (drainState s).1.tableStates.map Prod.fst = s.tableStates.map Prod.fst := by
  simp only [drainState]
  split
  · exact ⟨rfl, rfl, rfl, rfl⟩
  · exact ⟨rfl, rfl, rfl, drainAllQueues_keys _ _⟩

theorem drainState_totalQueued_lt {s : EngineState} (h : (drainState s).2 = true) :
    totalQueued (drainState s).1.tableStates < totalQueued s.tableStates := by
  simp only [drainState] at h ⊢
  split at h
  · simp at h
  · rename_i st hst
    simpa [hst] using drainAllQueues_totalQueued_lt s.tableStates st h

theorem drainState_store_isSome (s : EngineState) :
    (drainState s).1.store.isSome = s.store.isSome := by
  rw [(drainState_parts s).2.1]

/-- After the finalizer's fueled drain/flush loop (with enough fuel),
every table's ready batch is empty: the loop always ends with a
flush-everything walk. -/
theorem finalDrainFuel_batch_empty {cfg : SeederConfig} :
    ∀ (fuel : Nat) {s s' : EngineState}, totalQueued s.tableStates < fuel →
      finalDrainFuel cfg fuel s = Except.ok s' →
      ∀ t ts2, lookupTS s' t = some ts2 → ts2.batch = [] := by
  intro fuel
  induction fuel with
  | zero => intro s s' hq h; omega
  | succ n ih =>
    intro s s' hq h
    simp only [finalDrainFuel] at h
    split at h
    · simp at h
    · rename_i s1 hfa
      cases hr2 : (drainState s).2 with
      | false =>
        rw [hr2] at h
        simp only [Bool.false_eq_true, if_false] at h
        cases h
        intro t ts2 hts2
        have hkeys : s'.tableStates.map Prod.fst =
            (drainState s).1.tableStates.map Prod.fst := (flushAllTables_pres hfa).2.1
        have hmem : t ∈ (drainState s).1.tableStates.map Prod.fst := by
          rw [← hkeys]
          exact lookupAssoc_mem_keys _ _ _ hts2
        exact flushAllTables_batch_empty hfa t hmem ts2 hts2
      | true =>
        rw [hr2] at h
        simp only [if_pos rfl] at h
        have hq1 : totalQueued s1.tableStates < n := by
          have h1 := (flushAllTables_pres hfa).2.2.2.1
          have h2 := drainState_totalQueued_lt hr2
          omega
        exact ih hq1 h

theorem checkStuck_ok {tss : List (String × TableState)}
    (h : checkStuck tss = Except.ok ()) : ∀ p ∈ tss, p.2.queue = [] := by
  simp only [checkStuck] at h
  split at h
  · simp at h
  · rename_i hany
    intro p hp
    by_cases hq : p.2.queue = []
    · exact hq
    · exact absurd (List.any_eq_true.mpr ⟨p, hp, by simp [hq]⟩) hany

theorem refExists_mem {ρ : RefData} {st : RefStore} (h : refExists ρ st = true) :
    ∃ row ∈ st, row.table = ρ.refTableName ∧ row.rowIndex = ρ.refRowIndex := by
  simp only [refExists, storeFind] at h
  cases hf : st.find? (fun row => row.table == ρ.refTableName &&
      row.rowIndex == ρ.refRowIndex) with
  | none => rw [hf] at h; simp at h
  | some row =>
    refine ⟨row, List.mem_of_find?_eq_some hf, ?_⟩
    have hpred := List.find?_some hf
    simp only [Bool.and_eq_true, beq_iff_eq] at hpred
    exact hpred

theorem tableStream_append_singleton (consumed : List RawChunk) (rc : RawChunk)
    (t : String) :
    tableStream (consumed ++ [rc]) t =
      tableStream consumed t ++ (if rc.table == t then [rc.data] else []) := by
  simp only [tableStream, List.filter_append, List.map_append]
  congr 1
  cases h : (rc.table == t) <;> simp [List.filter, h]

open List in
/-- Moving the eligible queue entries into the batch only rearranges a
table's held pairs. -/
theorem tsPairs_drainTable_perm (ts : TableState) (st : RefStore)
    (hlen : ts.rowIndices.length = ts.batch.length) :
    (tsPairs (drainTable ts st).1).Perm (tsPairs ts) := by
  have hq := drainTable_queue ts st
  have hb := drainTable_batch ts st
  have hr := drainTable_rowIndices ts st
  set p := fun q : QueuedChunk => areAllRefsResolved q.pendingRefs st with hp
  have hzip : (drainTable ts st).1.rowIndices.zip (drainTable ts st).1.batch =
      ts.rowIndices.zip ts.batch ++
        (ts.queue.filter p).map (fun q => (q.rowIndex, q.chunk)) := by
    rw [hb, hr, List.zip_append hlen, List.zip_map']
  calc tsPairs (drainTable ts st).1
      = (ts.rowIndices.zip ts.batch ++
          (ts.queue.filter p).map (fun q => (q.rowIndex, q.chunk))) ++
          ((ts.queue.filter fun q => !p q).map (fun q => (q.rowIndex, q.chunk))) := by
        rw [tsPairs, hzip, hq]
    _ = ts.rowIndices.zip ts.batch ++
          ((ts.queue.filter p).map (fun q => (q.rowIndex, q.chunk)) ++
            (ts.queue.filter fun q => !p q).map (fun q => (q.rowIndex, q.chunk))) := by
        rw [List.append_assoc]
    _ = ts.rowIndices.zip ts.batch ++
          ((ts.queue.filter p ++ ts.queue.filter fun q => !p q).map
            (fun q => (q.rowIndex, q.chunk))) := by rw [List.map_append]
    _ ~ ts.rowIndices.zip ts.batch ++
          ts.queue.map (fun q => (q.rowIndex, q.chunk)) :=
        ((List.filter_append_perm p ts.queue).map _).append_left _
    _ = tsPairs ts := rfl

open List in
/-- Appending one pair at the end of the batch appends it to the
table's held pairs, up to permutation. -/
theorem tsPairs_push_batch (ts : TableState) (c : Chunk) (i : Nat)
    (hlen : ts.rowIndices.length = ts.batch.length) :
    (tsPairs { ts with batch := ts.batch ++ [c],
                       rowIndices := ts.rowIndices ++ [i] }).Perm
      (tsPairs ts ++ [(i, c)]) := by
  have hzip : (ts.rowIndices ++ [i]).zip (ts.batch ++ [c]) =
      ts.rowIndices.zip ts.batch ++ [(i, c)] := by
    rw [List.zip_append hlen]
    rfl
  calc tsPairs { ts with batch := ts.batch ++ [c], rowIndices := ts.rowIndices ++ [i] }
      = (ts.rowIndices.zip ts.batch ++ [(i, c)]) ++
          ts.queue.map (fun q => (q.rowIndex, q.chunk)) := by rw [tsPairs, hzip]
    _ = ts.rowIndices.zip ts.batch ++
          ([(i, c)] ++ ts.queue.map (fun q => (q.rowIndex, q.chunk))) := by
        rw [List.append_assoc]
    _ ~ ts.rowIndices.zip ts.batch ++
          (ts.queue.map (fun q => (q.rowIndex, q.chunk)) ++ [(i, c)]) :=
        (List.perm_append_comm).append_left _
    _ = tsPairs ts ++ [(i, c)] := by rw [tsPairs, List.append_assoc]

theorem tsPairs_push_queue (ts : TableState) (q : QueuedChunk) :
    tsPairs { ts with queue := ts.queue ++ [q] } =
      tsPairs ts ++ [(q.rowIndex, q.chunk)] := by
  simp [tsPairs, List.append_assoc]

/-! ## The run invariant -/

/-- The engine's run invariant, relating the state to the prefix of the
stream consumed so far: every consumed chunk is held in exactly one
place (insert log, ready batch, or deferred queue, counted with its per
table sequence number), batches and row-index lists move in lockstep,
the scratch store only holds flushed rows, batched chunks only hold
resolved references, and every flushed chunk's references point at rows
flushed strictly earlier. -/
theorem flushedPairs_append (l1 l2 : List Insert) (t : String) :
    flushedPairs (l1 ++ l2) t = flushedPairs l1 t ++ flushedPairs l2 t := by
  simp [flushedPairs]

theorem flushedPairs_singleton_self (ins : Insert) (t : String) (h : ins.table = t) :
    flushedPairs [ins] t = eventPairs ins := by
  simp [flushedPairs, h]

theorem flushedPairs_singleton_ne (ins : Insert) (t : String) (h : ins.table ≠ t) :
    flushedPairs [ins] t = [] := by
  simp [flushedPairs, h]

theorem tablePairs_updateAssoc_self (tss : List (String × TableState)) (t : String)
    (v : TableState) : tablePairs (updateAssoc tss t v) t = tsPairs v := by
  simp [tablePairs, lookupAssoc_updateAssoc_self]

theorem tablePairs_updateAssoc_ne (tss : List (String × TableState)) {t t0 : String}
    (v : TableState) (h : t ≠ t0) :
    tablePairs (updateAssoc tss t0 v) t = tablePairs tss t := by
  simp [tablePairs, lookupAssoc_updateAssoc_ne _ _ _ _ h]

theorem tablePairs_of_lookup (tss : List (String × TableState)) (t : String)
    {ts : TableState} (h : lookupAssoc tss t = some ts) :
    tablePairs tss t = tsPairs ts := by
  simp [tablePairs, h]

structure Inv (cfg : SeederConfig) (consumed : List RawChunk) (s : EngineState) : Prop where
  store_iff : s.store.isSome = cfg.hasRefs
  dom : ∀ t, lookupAssoc s.tableStates t = none → lookupAssoc s.rowIndexByTable t = none
  perm : ∀ t, (flushedPairs s.inserts t ++ tablePairs s.tableStates t).Perm
    (numbered 0 (tableStream consumed t))
  len : ∀ t ts, lookupAssoc s.tableStates t = some ts →
    ts.rowIndices.length = ts.batch.length
  count : ∀ t, rowIdxOf s t = (tableStream consumed t).length
  elen : ∀ e ∈ s.inserts, e.rowIndices.length = e.rawChunks.length
  erows : ∀ e ∈ s.inserts, e.rows.length = e.rawChunks.length
  qpend : ∀ t ts, lookupAssoc s.tableStates t = some ts →
    ∀ q ∈ ts.queue, q.pendingRefs = extractRefs q.chunk
  qempty : s.store = none → ∀ t ts, lookupAssoc s.tableStates t = some ts → ts.queue = []
  bref : ∀ st, s.store = some st → ∀ t ts, lookupAssoc s.tableStates t = some ts →
    ∀ c ∈ ts.batch, ∀ ρ ∈ extractRefs c, refExists ρ st = true
  storig : ∀ st, s.store = some st → ∀ row ∈ st,
    ∃ e ∈ s.inserts, e.table = row.table ∧ row.rowIndex ∈ e.rowIndices
  evref : ∀ pre e post, s.inserts = pre ++ e :: post →
    ∀ c ∈ e.rawChunks, ∀ ρ ∈ extractRefs c,
    ∃ e2 ∈ pre, e2.table = ρ.refTableName ∧ ρ.refRowIndex ∈ e2.rowIndices

theorem Inv.flush {cfg : SeederConfig} {consumed : List RawChunk} {t0 : String}
    {s s' : EngineState} (inv : Inv cfg consumed s)
    (h : flushTableInState cfg t0 s = Except.ok s') : Inv cfg consumed s' := by
  rcases flushTableInState_ok_inv h with ⟨hnone, rfl⟩ |
    ⟨ts, ts', store', ins?, hts, hft, rfl⟩
  · exact inv
  rcases flushTable_ok_inv hft with ⟨hb, rfl, rfl, rfl⟩ |
    ⟨hb, resolvedBatch, hm, hr, rfl, rfl⟩
  · have hs := updateAssoc_self_eq s.tableStates t0 _ hts
    cases s
    dsimp only at hs ⊢
    rw [hs]
    simpa using inv
  set cleared : TableState :=
    { ts with batch := [], rowIndices := [],
              seededCount := ts.seededCount + ts.batch.length } with hcleared
  set ins : Insert :=
    { table := t0, rows := resolvedBatch, rowIndices := ts.rowIndices,
      rawChunks := ts.batch } with hins
  refine ⟨?_, ?_, ?_, ?_, ?_, ?_, ?_, ?_, ?_, ?_, ?_, ?_⟩
  · show store'.isSome = cfg.hasRefs
    rw [recordRefs_isSome hr]
    exact inv.store_iff
  · intro t ht
    by_cases h0 : t = t0
    · subst h0
      dsimp only at ht
      rw [lookupAssoc_updateAssoc_self] at ht
      cases ht
    · dsimp only at ht ⊢
      rw [lookupAssoc_updateAssoc_ne _ _ _ _ h0] at ht
      exact inv.dom t ht
  · intro t
    dsimp only
    rw [show (some ins).toList = [ins] from rfl, flushedPairs_append]
    by_cases h0 : t = t0
    · subst h0
      rw [flushedPairs_singleton_self ins t (by rw [hins]),
        tablePairs_updateAssoc_self]
      have hev : eventPairs ins = ts.rowIndices.zip ts.batch := rfl
      have hq : tsPairs cleared = ts.queue.map (fun q => (q.rowIndex, q.chunk)) := by
        rw [hcleared]
        simp [tsPairs]
      rw [hev, hq, List.append_assoc]
      have hperm := inv.perm t
      rw [tablePairs_of_lookup _ _ hts] at hperm
      exact hperm
    · rw [flushedPairs_singleton_ne ins t (by rw [hins]; exact fun hc => h0 hc.symm),
        List.append_nil, tablePairs_updateAssoc_ne _ cleared h0]
      exact inv.perm t
  · intro t ts2 h2
    dsimp only at h2
    by_cases h0 : t = t0
    · subst h0
      rw [lookupAssoc_updateAssoc_self] at h2
      cases h2
      simp [hcleared]
    · rw [lookupAssoc_updateAssoc_ne _ _ _ _ h0] at h2
      exact inv.len t ts2 h2
  · intro t
    exact inv.count t
  · intro e he
    dsimp only at he
    rw [show (some ins).toList = [ins] from rfl] at he
    rcases List.mem_append.mp he with hold | hnew
    · exact inv.elen e hold
    · rw [List.mem_singleton.mp hnew, hins]
      exact inv.len _ _ hts
  · intro e he
    dsimp only at he
    rw [show (some ins).toList = [ins] from rfl] at he
    rcases List.mem_append.mp he with hold | hnew
    · exact inv.erows e hold
    · rw [List.mem_singleton.mp hnew, hins]
      exact mapExcept_length hm
  · intro t ts2 h2
    dsimp only at h2
    by_cases h0 : t = t0
    · subst h0
      rw [lookupAssoc_updateAssoc_self] at h2
      cases h2
      intro q hq
      rw [hcleared] at hq
      exact inv.qpend _ _ hts q hq
    · rw [lookupAssoc_updateAssoc_ne _ _ _ _ h0] at h2
      exact inv.qpend t ts2 h2
  · intro hnone' t ts2 h2
    dsimp only at hnone' h2
    have hsnone : s.store = none := by
      have hiso := recordRefs_isSome hr
      rw [hnone'] at hiso
      cases hs : s.store with
      | none => rfl
      | some st => rw [hs] at hiso; simp at hiso
    by_cases h0 : t = t0
    · subst h0
      rw [lookupAssoc_updateAssoc_self] at h2
      cases h2
      show ts.queue = []
      exact inv.qempty hsnone _ _ hts
    · rw [lookupAssoc_updateAssoc_ne _ _ _ _ h0] at h2
      exact inv.qempty hsnone t ts2 h2
  · intro st2 hst2 t ts2 h2 c hc ρ hρ
    dsimp only at hst2 h2
    by_cases h0 : t = t0
    · subst h0
      rw [lookupAssoc_updateAssoc_self] at h2
      cases h2
      rw [hcleared] at hc
      simp at hc
    · rw [lookupAssoc_updateAssoc_ne _ _ _ _ h0] at h2
      cases hs : s.store with
      | none =>
        rw [hs, recordRefs_none] at hr
        cases hr
        cases hst2
      | some st =>
        rw [hs] at hr
        rcases recordRefs_some_inv hr with ⟨rows, hrows, _⟩
        rw [hst2] at hrows
        cases hrows
        exact refExists_append rows (inv.bref st hs t ts2 h2 c hc ρ hρ)
  · intro st2 hst2 row hrow
    dsimp only at hst2
    cases hs : s.store with
    | none =>
      rw [hs, recordRefs_none] at hr
      cases hr
      cases hst2
    | some st =>
      rw [hs] at hr
      rcases recordRefs_some_inv hr with ⟨rows, hrows, hspec⟩
      rw [hst2] at hrows
      cases hrows
      rcases List.mem_append.mp hrow with hold | hnew
      · rcases inv.storig st hs row hold with ⟨e, he, h1, h2⟩
        refine ⟨e, ?_, h1, h2⟩
        dsimp only
        exact List.mem_append_left _ he
      · rcases hspec row hnew with ⟨h1, h2⟩
        refine ⟨ins, ?_, ?_, ?_⟩
        · dsimp only
          rw [show (some ins).toList = [ins] from rfl]
          exact List.mem_append_right _ (by simp)
        · rw [hins, h1]
        · rw [hins]
          exact h2
  · intro pre e post hsplit c hc ρ hρ
    dsimp only at hsplit
    rw [show (some ins).toList = [ins] from rfl] at hsplit
    rcases append_singleton_split hsplit with ⟨hpost, he, hpre⟩ |
      ⟨post2, hpost, hinsplit⟩
    · subst he
      subst hpre
      rw [hins] at hc
      cases hs : s.store with
      | none =>
        rw [hs] at hm
        rcases mapExcept_ok_of_forall hm c hc with ⟨y, hy⟩
        rw [resolveChunk_none_ok_no_refs hy] at hρ
        cases hρ
      | some st =>
        have hre : refExists ρ st = true := inv.bref st hs _ _ hts c hc ρ hρ
        rcases refExists_mem hre with ⟨row, hrowmem, h1, h2⟩
        rcases inv.storig st hs row hrowmem with ⟨e2, he2, h3, h4⟩
        exact ⟨e2, he2, by rw [h3]; exact h1, by rw [← h2]; exact h4⟩
    · rcases inv.evref pre e post2 hinsplit c hc ρ hρ with ⟨e2, he2, h1, h2⟩
      exact ⟨e2, he2, h1, h2⟩

theorem Inv.drainPassInv {cfg : SeederConfig} {consumed : List RawChunk}
    {s : EngineState} {st : RefStore} (inv : Inv cfg consumed s)
    (hs : s.store = some st) :
    Inv cfg consumed { s with tableStates := (drainPass s.tableStates st).1 } := by
  refine ⟨inv.store_iff, ?_, ?_, ?_, inv.count, inv.elen, inv.erows, ?_, ?_, ?_,
    inv.storig, inv.evref⟩
  · intro t ht
    dsimp only at ht
    rw [drainPass_lookup] at ht
    exact inv.dom t (by
      cases hl : lookupAssoc s.tableStates t with
      | none => rfl
      | some ts => rw [hl] at ht; simp at ht)
  · intro t
    dsimp only
    cases hl : lookupAssoc s.tableStates t with
    | none =>
      have h1 : tablePairs (drainPass s.tableStates st).1 t = [] := by
        simp [tablePairs, drainPass_lookup, hl]
      have h2 := inv.perm t
      rw [show tablePairs s.tableStates t = [] from by simp [tablePairs, hl]] at h2
      rw [h1]
      exact h2
    | some ts =>
      have h1 : tablePairs (drainPass s.tableStates st).1 t =
          tsPairs (drainTable ts st).1 := by
        simp [tablePairs, drainPass_lookup, hl]
      have h2 := inv.perm t
      rw [tablePairs_of_lookup _ _ hl] at h2
      rw [h1]
      exact ((tsPairs_drainTable_perm ts st (inv.len t ts hl)).append_left _).trans h2
  · intro t ts2 h2
    dsimp only at h2
    rw [drainPass_lookup] at h2
    cases hl : lookupAssoc s.tableStates t with
    | none => rw [hl] at h2; cases h2
    | some ts =>
      rw [hl] at h2
      simp only [Option.map_some'] at h2
      cases h2
      rw [drainTable_rowIndices, drainTable_batch]
      simp [inv.len t ts hl]
  · intro t ts2 h2
    dsimp only at h2
    rw [drainPass_lookup] at h2
    cases hl : lookupAssoc s.tableStates t with
    | none => rw [hl] at h2; cases h2
    | some ts =>
      rw [hl] at h2
      simp only [Option.map_some'] at h2
      cases h2
      intro q hq
      rw [drainTable_queue] at hq
      exact inv.qpend t ts hl q (List.mem_of_mem_filter hq)
  · intro hnone
    dsimp only at hnone
    rw [hs] at hnone
    cases hnone
  · intro st2 hst2 t ts2 h2 c hc ρ hρ
    dsimp only at hst2 h2
    rw [hs] at hst2
    cases hst2
    rw [drainPass_lookup] at h2
    cases hl : lookupAssoc s.tableStates t with
    | none => rw [hl] at h2; cases h2
    | some ts =>
      rw [hl] at h2
      simp only [Option.map_some'] at h2
      cases h2
      rw [drainTable_batch] at hc
      rcases List.mem_append.mp hc with hold | hnew
      · exact inv.bref st hs t ts hl c hold ρ hρ
      · rcases List.mem_map.mp hnew with ⟨q, hq, rfl⟩
        have helig := (List.mem_filter.mp hq).2
        have hpend := inv.qpend t ts hl q (List.mem_of_mem_filter hq)
        rw [hpend] at helig
        simp only [areAllRefsResolved, List.all_eq_true] at helig
        exact helig ρ hρ

theorem Inv.drainFuel {cfg : SeederConfig} {consumed : List RawChunk} {st : RefStore} :
    ∀ (fuel : Nat) {s : EngineState}, Inv cfg consumed s → s.store = some st →
      Inv cfg consumed { s with tableStates := drainLoopFuel fuel s.tableStates st } := by
  intro fuel
  induction fuel with
  | zero => intro s inv _; exact inv
  | succ n ih =>
    intro s inv hs
    simp only [drainLoopFuel]
    cases hp : (drainPass s.tableStates st).2 with
    | true =>
      simp only [if_pos rfl]
      exact ih (Inv.drainPassInv inv hs) hs
    | false =>
      simp only [Bool.false_eq_true, if_false]
      exact Inv.drainPassInv inv hs

theorem Inv.drainAllInv {cfg : SeederConfig} {consumed : List RawChunk}
    {s : EngineState} {st : RefStore} (inv : Inv cfg consumed s)
    (hs : s.store = some st) :
    Inv cfg consumed { s with tableStates := (drainAllQueues s.tableStates st).1 } := by
  simp only [drainAllQueues]
  cases hp : (drainPass s.tableStates st).2 with
  | true =>
    simp only [if_pos rfl]
    exact Inv.drainFuel _ (Inv.drainPassInv inv hs) hs
  | false =>
    simp only [Bool.false_eq_true, if_false]
    exact Inv.drainPassInv inv hs

theorem Inv.drainStateInv {cfg : SeederConfig} {consumed : List RawChunk}
    {s : EngineState} (inv : Inv cfg consumed s) :
    Inv cfg consumed (drainState s).1 := by
  cases hs : s.store with
  | none => simp only [drainState, hs]; exact inv
  | some st =>
    have h1 := Inv.drainAllInv inv hs
    rw [hs] at h1
    simp only [drainState, hs]
    exact h1

theorem lookupAssoc_append_single_ne (xs : List (String × α)) (k t : String) (v : α)
    (h : t ≠ k) : lookupAssoc (xs ++ [(k, v)]) t = lookupAssoc xs t := by
  cases hl : lookupAssoc xs t with
  | some w => exact lookupAssoc_append_some _ _ _ _ hl
  | none =>
    rw [lookupAssoc_append_none _ _ _ hl, lookupAssoc_cons]
    simp [lookupAssoc, show (k == t) = false from by simpa using Ne.symm h]

theorem lookupAssoc_append_single_self (xs : List (String × α)) (k : String) (v : α)
    (h : lookupAssoc xs k = none) : lookupAssoc (xs ++ [(k, v)]) k = some v := by
  rw [lookupAssoc_append_none _ _ _ h, lookupAssoc_cons]
  simp

theorem initTableState_some {cfg : SeederConfig} {s : EngineState} {rc : RawChunk}
    {ts : TableState} (hl : lookupAssoc s.tableStates rc.table = some ts) :
    initTableState cfg s rc = s := by
  unfold initTableState
  rw [hl]

theorem initTableState_none {cfg : SeederConfig} {s : EngineState} {rc : RawChunk}
    (hl : lookupAssoc s.tableStates rc.table = none) :
    initTableState cfg s rc =
      { s with
          tableStates := s.tableStates ++ [(rc.table, freshTableState cfg rc)],
          rowIndexByTable := s.rowIndexByTable ++ [(rc.table, 0)] } := by
  unfold initTableState
  rw [hl]

theorem Inv.init {cfg : SeederConfig} {consumed : List RawChunk} {s : EngineState}
    (rc : RawChunk) (inv : Inv cfg consumed s) :
    Inv cfg consumed (initTableState cfg s rc) := by
  cases hl : lookupAssoc s.tableStates rc.table with
  | some ts => rw [initTableState_some hl]; exact inv
  | none =>
    rw [initTableState_none hl]
    have hri : lookupAssoc s.rowIndexByTable rc.table = none := inv.dom rc.table hl
    have hstream : tableStream consumed rc.table = [] := by
      have hc := inv.count rc.table
      rw [rowIdxOf, hri] at hc
      exact List.length_eq_zero.mp hc.symm
    refine ⟨inv.store_iff, ?_, ?_, ?_, ?_, inv.elen, inv.erows, ?_, ?_, ?_,
      inv.storig, inv.evref⟩
    · intro t ht
      dsimp only at ht ⊢
      by_cases h0 : t = rc.table
      · subst h0
        rw [lookupAssoc_append_single_self _ _ _ hl] at ht
        cases ht
      · rw [lookupAssoc_append_single_ne _ _ _ _ h0] at ht
        rw [lookupAssoc_append_single_ne _ _ _ _ h0]
        exact inv.dom t ht
    · intro t
      dsimp only
      by_cases h0 : t = rc.table
      · subst h0
        have h1 : tablePairs (s.tableStates ++ [(rc.table, freshTableState cfg rc)])
            rc.table = ([] : List (Nat × Chunk)) := by
          simp [tablePairs, lookupAssoc_append_single_self _ _ _ hl, tsPairs,
            freshTableState]
        rw [h1]
        have h2 := inv.perm rc.table
        rw [show tablePairs s.tableStates rc.table = [] from by
          simp [tablePairs, hl]] at h2
        exact h2
      · have h1 : tablePairs (s.tableStates ++ [(rc.table, freshTableState cfg rc)]) t =
            tablePairs s.tableStates t := by
          simp [tablePairs, lookupAssoc_append_single_ne _ _ _ _ h0]
        rw [h1]
        exact inv.perm t
    · intro t ts2 h2
      dsimp only at h2
      by_cases h0 : t = rc.table
      · subst h0
        rw [lookupAssoc_append_single_self _ _ _ hl] at h2
        cases h2
        rfl
      · rw [lookupAssoc_append_single_ne _ _ _ _ h0] at h2
        exact inv.len t ts2 h2
    · intro t
      by_cases h0 : t = rc.table
      · subst h0
        rw [rowIdxOf]
        dsimp only
        rw [lookupAssoc_append_single_self _ _ _ hri]
        simp [hstream]
      · rw [rowIdxOf]
        dsimp only
        rw [lookupAssoc_append_single_ne _ _ _ _ h0]
        exact inv.count t
    · intro t ts2 h2
      dsimp only at h2
      by_cases h0 : t = rc.table
      · subst h0
        rw [lookupAssoc_append_single_self _ _ _ hl] at h2
        cases h2
        intro q hq
        cases hq
      · rw [lookupAssoc_append_single_ne _ _ _ _ h0] at h2
        exact inv.qpend t ts2 h2
    · intro hnone t ts2 h2
      dsimp only at h2
      by_cases h0 : t = rc.table
      · subst h0
        rw [lookupAssoc_append_single_self _ _ _ hl] at h2
        cases h2
        rfl
      · rw [lookupAssoc_append_single_ne _ _ _ _ h0] at h2
        exact inv.qempty hnone t ts2 h2
    · intro st hst t ts2 h2 c hc ρ hρ
      dsimp only at h2
      by_cases h0 : t = rc.table
      · subst h0
        rw [lookupAssoc_append_single_self _ _ _ hl] at h2
        cases h2
        cases hc
      · rw [lookupAssoc_append_single_ne _ _ _ _ h0] at h2
        exact inv.bref st hst t ts2 h2 c hc ρ hρ

theorem classifyChunk_some {cfg : SeederConfig} {s : EngineState} {rc : RawChunk}
    {ts0 : TableState} (hts : lookupAssoc s.tableStates rc.table = some ts0) :
    classifyChunk cfg s rc =
      { s with
          rowIndexByTable := updateAssoc s.rowIndexByTable rc.table
            (rowIdxOf s rc.table + 1),
          tableStates := updateAssoc s.tableStates rc.table
            (if !cfg.hasRefs || (extractRefs rc.data).isEmpty then
              pushToBatch ts0 rc.data (rowIdxOf s rc.table)
            else if areAllRefsResolved (extractRefs rc.data) (s.store.getD []) then
              pushToBatch ts0 rc.data (rowIdxOf s rc.table)
            else
              pushToQueue ts0 rc.data (rowIdxOf s rc.table) (extractRefs rc.data)) } := by
  unfold classifyChunk
  dsimp only
  rw [hts]
  rfl

/-- Eligibility with an appended-to-batch outcome preserves the run
invariant, provided references of the new chunk are resolved whenever a
store is live. -/
theorem Inv.classify_push {cfg : SeederConfig} {consumed : List RawChunk}
    {s : EngineState} {rc : RawChunk} {ts0 : TableState} (inv : Inv cfg consumed s)
    (hts : lookupAssoc s.tableStates rc.table = some ts0)
    (hrefs : ∀ st, s.store = some st → ∀ ρ ∈ extractRefs rc.data, refExists ρ st = true) :
    Inv cfg (consumed ++ [rc])
      { s with
          rowIndexByTable := updateAssoc s.rowIndexByTable rc.table
            (rowIdxOf s rc.table + 1),
          tableStates := updateAssoc s.tableStates rc.table
            (pushToBatch ts0 rc.data (rowIdxOf s rc.table)) } := by
  have hn : rowIdxOf s rc.table = (tableStream consumed rc.table).length :=
    inv.count rc.table
  refine ⟨inv.store_iff, ?_, ?_, ?_, ?_, inv.elen, inv.erows, ?_, ?_, ?_,
    inv.storig, inv.evref⟩
  · intro t ht
    dsimp only at ht ⊢
    by_cases h0 : t = rc.table
    · subst h0
      rw [lookupAssoc_updateAssoc_self] at ht
      cases ht
    · rw [lookupAssoc_updateAssoc_ne _ _ _ _ h0] at ht
      rw [lookupAssoc_updateAssoc_ne _ _ _ _ h0]
      exact inv.dom t ht
  · intro t
    dsimp only
    by_cases h0 : t = rc.table
    · subst h0
      have hts2 : tableStream (consumed ++ [rc]) rc.table =
          tableStream consumed rc.table ++ [rc.data] := by
        rw [tableStream_append_singleton]
        simp
      rw [tablePairs_updateAssoc_self, hts2]
      rw [numbered_append_singleton, Nat.zero_add]
      have hperm := inv.perm rc.table
      rw [tablePairs_of_lookup _ _ hts] at hperm
      have hpush := tsPairs_push_batch ts0 rc.data (rowIdxOf s rc.table)
        (inv.len _ _ hts)
      refine (hpush.append_left _).trans ?_
      rw [← List.append_assoc, ← hn]
      exact hperm.append_right _
    · rw [tablePairs_updateAssoc_ne _ _ h0, tableStream_append_singleton]
      rw [show (rc.table == t) = false from by
        simpa using fun hc : rc.table = t => h0 hc.symm]
      simp only [Bool.false_eq_true, if_false, List.append_nil]
      exact inv.perm t
  · intro t ts2 h2
    dsimp only at h2
    by_cases h0 : t = rc.table
    · subst h0
      rw [lookupAssoc_updateAssoc_self] at h2
      cases h2
      simp [pushToBatch, inv.len _ _ hts]
    · rw [lookupAssoc_updateAssoc_ne _ _ _ _ h0] at h2
      exact inv.len t ts2 h2
  · intro t
    rw [rowIdxOf]
    dsimp only
    by_cases h0 : t = rc.table
    · subst h0
      have hts2 : tableStream (consumed ++ [rc]) rc.table =
          tableStream consumed rc.table ++ [rc.data] := by
        rw [tableStream_append_singleton]
        simp
      rw [lookupAssoc_updateAssoc_self, hts2]
      simp [hn]
    · rw [lookupAssoc_updateAssoc_ne _ _ _ _ h0, tableStream_append_singleton]
      rw [show (rc.table == t) = false from by
        simpa using fun hc : rc.table = t => h0 hc.symm]
      simp only [Bool.false_eq_true, if_false, List.append_nil]
      exact inv.count t
  · intro t ts2 h2
    dsimp only at h2
    by_cases h0 : t = rc.table
    · subst h0
      rw [lookupAssoc_updateAssoc_self] at h2
      cases h2
      intro q hq
      exact inv.qpend _ _ hts q hq
    · rw [lookupAssoc_updateAssoc_ne _ _ _ _ h0] at h2
      exact inv.qpend t ts2 h2
  · intro hnone t ts2 h2
    dsimp only at hnone h2
    by_cases h0 : t = rc.table
    · subst h0
      rw [lookupAssoc_updateAssoc_self] at h2
      cases h2
      show ts0.queue = []
      exact inv.qempty hnone _ _ hts
    · rw [lookupAssoc_updateAssoc_ne _ _ _ _ h0] at h2
      exact inv.qempty hnone t ts2 h2
  · intro st hst t ts2 h2 c hc ρ hρ
    dsimp only at hst h2
    by_cases h0 : t = rc.table
    · subst h0
      rw [lookupAssoc_updateAssoc_self] at h2
      cases h2
      rcases List.mem_append.mp hc with hold | hnew
      · exact inv.bref st hst _ _ hts c hold ρ hρ
      · rw [List.mem_singleton.mp hnew] at hρ
        exact hrefs st hst ρ hρ
    · rw [lookupAssoc_updateAssoc_ne _ _ _ _ h0] at h2
      exact inv.bref st hst t ts2 h2 c hc ρ hρ

/-- Eligibility with a deferred-to-queue outcome preserves the run
invariant; this branch presupposes a configured refs map. -/
theorem Inv.classify_queue {cfg : SeederConfig} {consumed : List RawChunk}
    {s : EngineState} {rc : RawChunk} {ts0 : TableState} (inv : Inv cfg consumed s)
    (hts : lookupAssoc s.tableStates rc.table = some ts0)
    (hhas : cfg.hasRefs = true) :
    Inv cfg (consumed ++ [rc])
      { s with
          rowIndexByTable := updateAssoc s.rowIndexByTable rc.table
            (rowIdxOf s rc.table + 1),
          tableStates := updateAssoc s.tableStates rc.table
            (pushToQueue ts0 rc.data (rowIdxOf s rc.table) (extractRefs rc.data)) } := by
  have hn : rowIdxOf s rc.table = (tableStream consumed rc.table).length :=
    inv.count rc.table
  refine ⟨inv.store_iff, ?_, ?_, ?_, ?_, inv.elen, inv.erows, ?_, ?_, ?_,
    inv.storig, inv.evref⟩
  · intro t ht
    dsimp only at ht ⊢
    by_cases h0 : t = rc.table
    · subst h0
      rw [lookupAssoc_updateAssoc_self] at ht
      cases ht
    · rw [lookupAssoc_updateAssoc_ne _ _ _ _ h0] at ht
      rw [lookupAssoc_updateAssoc_ne _ _ _ _ h0]
      exact inv.dom t ht
  · intro t
    dsimp only
    by_cases h0 : t = rc.table
    · subst h0
      have hts2 : tableStream (consumed ++ [rc]) rc.table =
          tableStream consumed rc.table ++ [rc.data] := by
        rw [tableStream_append_singleton]
        simp
      rw [tablePairs_updateAssoc_self, hts2]
      rw [numbered_append_singleton, Nat.zero_add]
      have hperm := inv.perm rc.table
      rw [tablePairs_of_lookup _ _ hts] at hperm
      rw [show tsPairs (pushToQueue ts0 rc.data (rowIdxOf s rc.table)
          (extractRefs rc.data)) =
        tsPairs ts0 ++ [(rowIdxOf s rc.table, rc.data)] from
        tsPairs_push_queue ts0 _]
      rw [← hn, ← List.append_assoc]
      exact hperm.append_right _
    · rw [tablePairs_updateAssoc_ne _ _ h0, tableStream_append_singleton]
      rw [show (rc.table == t) = false from by
        simpa using fun hc : rc.table = t => h0 hc.symm]
      simp only [Bool.false_eq_true, if_false, List.append_nil]
      exact inv.perm t
  · intro t ts2 h2
    dsimp only at h2
    by_cases h0 : t = rc.table
    · subst h0
      rw [lookupAssoc_updateAssoc_self] at h2
      cases h2
      show ts0.rowIndices.length = ts0.batch.length
      exact inv.len _ _ hts
    · rw [lookupAssoc_updateAssoc_ne _ _ _ _ h0] at h2
      exact inv.len t ts2 h2
  · intro t
    rw [rowIdxOf]
    dsimp only
    by_cases h0 : t = rc.table
    · subst h0
      have hts2 : tableStream (consumed ++ [rc]) rc.table =
          tableStream consumed rc.table ++ [rc.data] := by
        rw [tableStream_append_singleton]
        simp
      rw [lookupAssoc_updateAssoc_self, hts2]
      simp [hn]
    · rw [lookupAssoc_updateAssoc_ne _ _ _ _ h0, tableStream_append_singleton]
      rw [show (rc.table == t) = false from by
        simpa using fun hc : rc.table = t => h0 hc.symm]
      simp only [Bool.false_eq_true, if_false, List.append_nil]
      exact inv.count t
  · intro t ts2 h2
    dsimp only at h2
    by_cases h0 : t = rc.table
    · subst h0
      rw [lookupAssoc_updateAssoc_self] at h2
      cases h2
      intro q hq
      rcases List.mem_append.mp hq with hold | hnew
      · exact inv.qpend _ _ hts q hold
      · rw [List.mem_singleton.mp hnew]
    · rw [lookupAssoc_updateAssoc_ne _ _ _ _ h0] at h2
      exact inv.qpend t ts2 h2
  · intro hnone
    dsimp only at hnone
    have := inv.store_iff
    rw [hnone, hhas] at this
    simp at this
  · intro st hst t ts2 h2 c hc ρ hρ
    dsimp only at hst h2
    by_cases h0 : t = rc.table
    · subst h0
      rw [lookupAssoc_updateAssoc_self] at h2
      cases h2
      exact inv.bref st hst _ _ hts c hc ρ hρ
    · rw [lookupAssoc_updateAssoc_ne _ _ _ _ h0] at h2
      exact inv.bref st hst t ts2 h2 c hc ρ hρ

theorem Inv.classify {cfg : SeederConfig} {consumed : List RawChunk} {s : EngineState}
    {rc : RawChunk} {ts0 : TableState} (inv : Inv cfg consumed s)
    (hts : lookupAssoc s.tableStates rc.table = some ts0) :
    Inv cfg (consumed ++ [rc]) (classifyChunk cfg s rc) := by
  rw [classifyChunk_some hts]
  by_cases hc1 : (!cfg.hasRefs || (extractRefs rc.data).isEmpty) = true
  · rw [if_pos hc1]
    refine Inv.classify_push inv hts ?_
    intro st hst ρ hρ
    rcases Bool.or_eq_true_iff.mp hc1 with hh | he
    · have := inv.store_iff
      rw [hst] at this
      rw [show cfg.hasRefs = false from by simpa using hh] at this
      simp at this
    · rw [List.isEmpty_iff.mp he] at hρ
      cases hρ
  · rw [if_neg hc1]
    by_cases hc2 : areAllRefsResolved (extractRefs rc.data) (s.store.getD []) = true
    · rw [if_pos hc2]
      refine Inv.classify_push inv hts ?_
      intro st hst ρ hρ
      rw [hst] at hc2
      simp only [Option.getD_some] at hc2
      simp only [areAllRefsResolved, List.all_eq_true] at hc2
      exact hc2 ρ hρ
    · rw [if_neg hc2]
      refine Inv.classify_queue inv hts ?_
      cases hh : cfg.hasRefs with
      | true => rfl
      | false => rw [hh] at hc1; simp at hc1

theorem initTableState_lookup (cfg : SeederConfig) (s : EngineState) (rc : RawChunk) :
    ∃ ts0, lookupAssoc (initTableState cfg s rc).tableStates rc.table = some ts0 := by
  cases hl : lookupAssoc s.tableStates rc.table with
  | some ts => rw [initTableState_some hl]; exact ⟨ts, hl⟩
  | none =>
    rw [initTableState_none hl]
    exact ⟨freshTableState cfg rc, by
      dsimp only
      exact lookupAssoc_append_single_self _ _ _ hl⟩

theorem Inv.faq {cfg : SeederConfig} {consumed : List RawChunk} :
    ∀ {names : List String} {s s' : EngineState}, Inv cfg consumed s →
      flushAllQueuesAfterDrain cfg names s = Except.ok s' → Inv cfg consumed s' := by
  intro names
  induction names with
  | nil => intro s s' inv h; cases h; exact inv
  | cons n rest ih =>
    intro s s' inv h
    simp only [flushAllQueuesAfterDrain] at h
    split at h
    · exact ih inv h
    · split at h
      · split at h
        · simp at h
        · rename_i s1 h1
          exact ih ((inv.flush h1).drainStateInv) h
      · exact ih inv h

theorem Inv.fat {cfg : SeederConfig} {consumed : List RawChunk} :
    ∀ {names : List String} {s s' : EngineState}, Inv cfg consumed s →
      flushAllTables cfg names s = Except.ok s' → Inv cfg consumed s' := by
  intro names
  induction names with
  | nil => intro s s' inv h; cases h; exact inv
  | cons n rest ih =>
    intro s s' inv h
    simp only [flushAllTables] at h
    split at h
    · simp at h
    · rename_i s1 h1
      exact ih (inv.flush h1) h

theorem Inv.maybeFlush {cfg : SeederConfig} {consumed : List RawChunk} {t0 : String}
    {s s' : EngineState} (inv : Inv cfg consumed s)
    (h : maybeFlushAfterConsume cfg t0 s = Except.ok s') : Inv cfg consumed s' := by
  simp only [maybeFlushAfterConsume] at h
  split at h
  · cases h; exact inv
  · split at h
    · split at h
      · simp at h
      · rename_i s1 h1
        split at h
        · exact Inv.faq ((inv.flush h1).drainStateInv) h
        · cases h; exact inv.flush h1
    · cases h; exact inv

theorem Inv.consume {cfg : SeederConfig} {consumed : List RawChunk} {s s' : EngineState}
    {rc : RawChunk} (inv : Inv cfg consumed s)
    (h : consumeChunk cfg s rc = Except.ok s') : Inv cfg (consumed ++ [rc]) s' := by
  unfold consumeChunk at h
  rcases initTableState_lookup cfg s rc with ⟨ts0, hts0⟩
  exact Inv.maybeFlush ((Inv.init rc inv).classify hts0) h

theorem Inv.consumeStream {cfg : SeederConfig} :
    ∀ {stream : List RawChunk} {consumed : List RawChunk} {s s' : EngineState},
      Inv cfg consumed s → consumeAll cfg s stream = Except.ok s' →
      Inv cfg (consumed ++ stream) s' := by
  intro stream
  induction stream with
  | nil =>
    intro consumed s s' inv h
    cases h
    rw [List.append_nil]
    exact inv
  | cons rc rest ih =>
    intro consumed s s' inv h
    unfold consumeAll at h
    split at h
    · simp at h
    · rename_i s1 h1
      have := ih (Inv.consume inv h1) h
      rw [List.append_assoc] at this
      simpa using this

theorem Inv.finalDrain {cfg : SeederConfig} {consumed : List RawChunk} :
    ∀ (fuel : Nat) {s s' : EngineState}, Inv cfg consumed s →
      finalDrainFuel cfg fuel s = Except.ok s' → Inv cfg consumed s' := by
  intro fuel
  induction fuel with
  | zero => intro s s' inv h; cases h; exact inv
  | succ n ih =>
    intro s s' inv h
    simp only [finalDrainFuel] at h
    split at h
    · simp at h
    · rename_i s1 h1
      have inv1 := Inv.fat inv.drainStateInv h1
      split at h
      · exact ih inv1 h
      · cases h; exact inv1

theorem Inv.initial (cfg : SeederConfig) : Inv cfg [] (initialState cfg) := by
  refine ⟨?_, ?_, ?_, ?_, ?_, ?_, ?_, ?_, ?_, ?_, ?_, ?_⟩
  · cases hh : cfg.hasRefs <;> simp [initialState, hh]
  · intro t _; rfl
  · intro t
    simp [initialState, flushedPairs, tablePairs, lookupAssoc, tableStream, numbered]
  · intro t ts h
    simp [initialState, lookupAssoc] at h
  · intro t
    rfl
  · intro e he
    cases he
  · intro e he
    cases he
  · intro t ts h
    simp [initialState, lookupAssoc] at h
  · intro _ t ts h
    simp [initialState, lookupAssoc] at h
  · intro st hst t ts h
    simp [initialState, lookupAssoc] at h
  · intro st hst row hrow
    simp only [initialState] at hst
    cases hh : cfg.hasRefs with
    | true =>
      rw [hh] at hst
      simp only [if_pos rfl] at hst
      cases hst
      cases hrow
    | false =>
      rw [hh] at hst
      simp at hst
  · intro pre e post hsplit
    simp only [initialState] at hsplit
    exact absurd hsplit.symm (by simp)

/-- Master inversion of a successful run: the run invariant holds at
the final state (relative to the whole stream), and every table's
batch and queue are empty. -/
theorem execute_ok_inv {cfg : SeederConfig} {stream : List RawChunk} {s : EngineState}
    (h : execute cfg stream = Except.ok s) :
    Inv cfg stream s ∧
      (∀ t ts, lookupAssoc s.tableStates t = some ts →
        ts.batch = [] ∧ ts.queue = []) := by
  unfold execute at h
  split at h
  · simp at h
  · rename_i s1 h1
    have inv1 : Inv cfg stream s1 := by
      have hall := Inv.consumeStream (Inv.initial cfg) h1
      simpa using hall
    split at h
    · simp at h
    · rename_i s2 h2
      have inv2 := Inv.fat inv1 h2
      have hbatch2 : ∀ t ts, lookupAssoc s2.tableStates t = some ts → ts.batch = [] := by
        intro t ts hts
        have hmem : t ∈ s2.tableStates.map Prod.fst := lookupAssoc_mem_keys _ _ _ hts
        rw [(flushAllTables_pres h2).2.1] at hmem
        exact flushAllTables_batch_empty h2 t hmem ts hts
      cases hcond : (cfg.hasRefs && s2.store.isSome) with
      | true =>
        rw [hcond] at h
        simp only [if_pos rfl] at h
        split at h
        · simp at h
        · rename_i s3 h3
          have inv3 := Inv.finalDrain _ inv2 h3
          have hbatch3 := finalDrainFuel_batch_empty _ (Nat.lt_succ_self _) h3
          split at h
          · simp at h
          · rename_i u hcs
            cases h
            obtain ⟨⟩ := u
            refine ⟨inv3, ?_⟩
            intro t ts hts
            refine ⟨hbatch3 t ts hts, ?_⟩
            exact checkStuck_ok hcs (t, ts) (lookupAssoc_mem _ _ _ hts)
      | false =>
        rw [hcond] at h
        simp only [Bool.false_eq_true, if_false] at h
        split at h
        · simp at h
        · rename_i u hcs
          cases h
          obtain ⟨⟩ := u
          refine ⟨inv2, ?_⟩
          intro t ts hts
          refine ⟨hbatch2 t ts hts, ?_⟩
          exact checkStuck_ok hcs (t, ts) (lookupAssoc_mem _ _ _ hts)

/-! ## Claim theorems -/

/-- C9: the drain operation is idempotent: immediately re-running
`drainAllQueues` on the table states a completed drain produced, with
the same store, leaves every table's batch, queue, and row-index list
unchanged and reports that no progress was made. -/
theorem drainAllQueues_idempotent (tss : List (String × TableState)) (st : RefStore) :
    drainAllQueues (drainAllQueues tss st).1 st = ((drainAllQueues tss st).1, false) := by
  have hfix := drainAllQueues_fst_fix tss st
  conv_lhs => rw [drainAllQueues]
  rw [hfix]
  simp

/-- C6 counterexample: when the store has no entry for the reference's
target key, `resolveRef` does not fail; it returns the substitute value
`undefined` (and in particular not any transformed value). -/
theorem resolveRef_missing_returns_undefined :
    resolveRef { refTableName := "books", refRowIndex := 0, refColumnName := "id",
                 transformFn := Transform.tconst (Plain.pstr "X") } [] = Val.undef ∧
      Val.undef ≠ Val.plain (Plain.pstr "X") := by
  exact ⟨rfl, by decide⟩

/-- C6 (amended): when the target key has no store entry (or the stored
row lacks the column), `resolveRef` returns `undefined` without
applying the transform; when the entry and column are present, it
returns the transform applied to the stored value. -/
theorem resolveRef_semantics :
    ∀ (r : RefData) (st : RefStore),
      (storeFind st r.refTableName r.refRowIndex = none → resolveRef r st = Val.undef) ∧
      (∀ row, storeFind st r.refTableName r.refRowIndex = some row →
        ∀ p, row.find? (fun q => q.1 == r.refColumnName) = some p →
          resolveRef r st = applyTransform r.transformFn p.2) := by
  intro r st
  constructor
  · intro hnone
    simp [resolveRef, hnone]
  · intro row hrow p hp
    simp [resolveRef, hrow, hp]

/-- C6 witness: both branches of `resolveRef_semantics` at concrete
inputs. -/
theorem resolveRef_semantics_witness :
    resolveRef w2ref [] = Val.undef ∧
      resolveRef w2ref c6store = applyTransform w2ref.transformFn (Val.plain (Plain.pint 7)) :=
  ⟨(resolveRef_semantics w2ref []).1 (by decide),
   (resolveRef_semantics w2ref c6store).2 [("id", Val.plain (Plain.pint 7))] (by decide)
     ("id", Val.plain (Plain.pint 7)) (by decide)⟩

/-- C5: the circular-dependency report enumerates, for every queued
chunk of every table, one line per pending reference (table, row
sequence, and target coordinates) — not only the first stuck chunk —
and the stuck check throws this full report whenever any table still
has a queued chunk. -/
theorem unresolved_refs_error_complete :
    (∀ (tss : List (String × TableState)) (tName : String) (ts : TableState)
        (q : QueuedChunk) (r : RefData), (tName, ts) ∈ tss → q ∈ ts.queue →
        r ∈ q.pendingRefs →
        unresolvedRefLine tName q.rowIndex r ∈ unresolvedRefLines tss) ∧
      (∀ tss : List (String × TableState),
        tss.any (fun p => !p.2.queue.isEmpty) = true →
        checkStuck tss = Except.error (getUnresolvedRefsError tss)) := by
  constructor
  · intro tss tName ts q r hmem hq hr
    simp only [unresolvedRefLines, List.mem_flatMap, List.mem_map]
    exact ⟨(tName, ts), hmem, q, hq, r, hr, rfl⟩
  · intro tss hany
    simp [checkStuck, hany]

/-- C5 witness: the report for a concrete stuck state contains the
stuck chunk's line, and the stuck check throws the full report. -/
theorem unresolved_refs_error_complete_witness :
    unresolvedRefLine "notes" 0 c10ref ∈ unresolvedRefLines c5tss ∧
      checkStuck c5tss = Except.error (getUnresolvedRefsError c5tss) :=
  ⟨unresolved_refs_error_complete.1 c5tss "notes"
      { batch := [], seededCount := 0, rowIndices := [], batchSize := 999, columnCount := 1,
        queue := [{ chunk := c10chunk, rowIndex := 0, pendingRefs := [c10ref] }] }
      { chunk := c10chunk, rowIndex := 0, pendingRefs := [c10ref] } c10ref
      (by decide) (by decide) (by decide),
   unresolved_refs_error_complete.2 c5tss (by decide)⟩

/-- C7: a full drain pass that reports progress strictly decreases the
total number of queued chunks (so the drain/flush loops terminate after
finitely many iterations), and on the direct 2-cycle the engine
terminates by raising the circular-reference error naming both rows. -/
theorem drain_terminates_and_cycle_reported :
    (∀ (tss : List (String × TableState)) (st : RefStore)
        (tss' : List (String × TableState)), drainPass tss st = (tss', true) →
        totalQueued tss' < totalQueued tss) ∧
      execute cycCfg cycStream =
        Except.error ("Failed to resolve refs (possible circular dependency):\n" ++
          "A[0] → B[0].c\nB[0] → A[0].c") := by
  constructor
  · intro tss st tss' hp
    have hlt := drainPass_totalQueued_lt tss st (by rw [hp])
    rw [hp] at hlt
    exact hlt
  · decide

/-- C7 witness: a concrete progressing drain pass strictly shrinks the
queues. -/
theorem drain_terminates_and_cycle_reported_witness :
    totalQueued (drainPass c7tss c6store).1 < totalQueued c7tss :=
  drain_terminates_and_cycle_reported.1 c7tss c6store (drainPass c7tss c6store).1
    (by decide)

/-- Arrival of a chunk whose eligibility condition holds appends it to
its table's ready batch and leaves every deferred queue untouched. -/
theorem classify_batches_when (cfg : SeederConfig) (s : EngineState) (rc : RawChunk)
    (hcond : (!cfg.hasRefs || (extractRefs rc.data).isEmpty) = true) :
    (∀ t, queueOf (classifyChunk cfg (initTableState cfg s rc) rc) t = queueOf s t) ∧
      batchOf (classifyChunk cfg (initTableState cfg s rc) rc) rc.table =
        batchOf s rc.table ++ [rc.data] := by
  rcases initTableState_lookup cfg s rc with ⟨ts0, hts0⟩
  rw [classifyChunk_some hts0, if_pos hcond]
  have hts0src : (lookupAssoc s.tableStates rc.table = some ts0 ∧
      batchOf s rc.table = ts0.batch ∧ queueOf s rc.table = ts0.queue) ∨
      (lookupAssoc s.tableStates rc.table = none ∧ ts0 = freshTableState cfg rc ∧
        batchOf s rc.table = [] ∧ queueOf s rc.table = []) := by
    cases hl : lookupAssoc s.tableStates rc.table with
    | some ts =>
      rw [initTableState_some hl, hl] at hts0
      cases hts0
      exact Or.inl ⟨rfl, by simp [batchOf, lookupTS, hl], by simp [queueOf, lookupTS, hl]⟩
    | none =>
      rw [initTableState_none hl] at hts0
      dsimp only at hts0
      rw [lookupAssoc_append_single_self _ _ _ hl] at hts0
      cases hts0
      exact Or.inr ⟨rfl, rfl, by simp [batchOf, lookupTS, hl], by simp [queueOf, lookupTS, hl]⟩
  have hinitq : ∀ t, queueOf (initTableState cfg s rc) t = queueOf s t := by
    intro t
    cases hl : lookupAssoc s.tableStates rc.table with
    | some ts => rw [initTableState_some hl]
    | none =>
      rw [initTableState_none hl]
      by_cases h0 : t = rc.table
      · subst h0
        simp [queueOf, lookupTS, lookupAssoc_append_single_self _ _ _ hl, hl,
          freshTableState]
      · simp [queueOf, lookupTS, lookupAssoc_append_single_ne _ _ _ _ h0]
  constructor
  · intro t
    by_cases h0 : t = rc.table
    · subst h0
      rw [show queueOf s rc.table = ts0.queue from by
        rcases hts0src with ⟨_, _, hq⟩ | ⟨_, hfresh, _, hq⟩
        · exact hq
        · rw [hq, hfresh]; rfl]
      simp [queueOf, lookupTS, lookupAssoc_updateAssoc_self, pushToBatch]
    · rw [← hinitq t]
      simp [queueOf, lookupTS, lookupAssoc_updateAssoc_ne _ _ _ _ h0]
  · rw [show batchOf s rc.table = ts0.batch from by
      rcases hts0src with ⟨_, hb, _⟩ | ⟨_, hfresh, hb, _⟩
      · exact hb
      · rw [hb, hfresh]; rfl]
    simp [batchOf, lookupTS, lookupAssoc_updateAssoc_self, pushToBatch]

/-- C8: a chunk with zero references is appended directly to its
table's ready batch on arrival and is never placed in any deferred
queue; and a flush of a non-empty batch persists that whole batch as
one bulk insert and clears it, so such a chunk is persisted by its
table's next flush. -/
theorem noref_chunk_direct_to_batch (cfg : SeederConfig) (s : EngineState)
    (rc : RawChunk) (h : extractRefs rc.data = []) :
    ((∀ t, queueOf (classifyChunk cfg (initTableState cfg s rc) rc) t = queueOf s t) ∧
      batchOf (classifyChunk cfg (initTableState cfg s rc) rc) rc.table =
        batchOf s rc.table ++ [rc.data]) ∧
      (∀ (tableName : String) (ts : TableState) (store : Option RefStore) r,
        flushTable cfg tableName ts store = Except.ok r →
        ∀ ins, r.2.2 = some ins → ins.rawChunks = ts.batch ∧ r.1.batch = []) := by
  constructor
  · exact classify_batches_when cfg s rc (by simp [h])
  · intro tableName ts store r hr ins hins
    obtain ⟨ts', store', ins?⟩ := r
    rcases flushTable_ok_inv hr with ⟨hb, rfl, rfl, rfl⟩ |
      ⟨hb, resolvedBatch, hm, hrec, rfl, rfl⟩
    · cases hins
    · cases hins
      exact ⟨rfl, rfl⟩

/-- C8 witness: a concrete no-ref chunk lands in the batch with no
queue touched, and a concrete flush persists the whole batch. -/
theorem noref_chunk_direct_to_batch_witness :
    (batchOf (classifyChunk w1cfg (initTableState w1cfg (initialState w1cfg) w1rc) w1rc)
        "users" = batchOf (initialState w1cfg) "users" ++ [w1rc.data]) ∧
      queueOf (classifyChunk w1cfg (initTableState w1cfg (initialState w1cfg) w1rc) w1rc)
        "users" = queueOf (initialState w1cfg) "users" :=
  ⟨(noref_chunk_direct_to_batch w1cfg (initialState w1cfg) w1rc (by decide)).1.2,
   (noref_chunk_direct_to_batch w1cfg (initialState w1cfg) w1rc (by decide)).1.1 "users"⟩

/-- C10: with an empty refs config every chunk is batched as eligible
(never deferred), even when it holds a reference; resolving a chunk
that holds a reference with no scratch store throws the "Cannot resolve
ref without SQLite database" error instead of substituting or dropping
it; and the concrete end-to-end run fails with exactly that error. -/
theorem noconfig_ref_chunk_batched_then_flush_throws :
    (∀ (cfg : SeederConfig) (s : EngineState) (rc : RawChunk), cfg.refsConfig = [] →
      (∀ t, queueOf (classifyChunk cfg (initTableState cfg s rc) rc) t = queueOf s t) ∧
        batchOf (classifyChunk cfg (initTableState cfg s rc) rc) rc.table =
          batchOf s rc.table ++ [rc.data]) ∧
      (∀ c : Chunk, (∃ p ∈ c, isColumnValueReference p.2 = true) →
        ∃ ρ ∈ extractRefs c, resolveChunk c none = Except.error (cannotResolveRefMsg ρ)) ∧
      execute c10cfg c10stream =
        Except.error "Cannot resolve ref without SQLite database: books[5].id" := by
  refine ⟨?_, ?_, by decide⟩
  · intro cfg s rc hempty
    exact classify_batches_when cfg s rc (by simp [SeederConfig.hasRefs, hempty])
  · intro c hc
    exact resolveChunk_none_error_of_ref hc

/-- C10 witness: the concrete ref-holding chunk is batched, not
deferred, and its resolution without a store errors. -/
theorem noconfig_ref_chunk_batched_then_flush_throws_witness :
    (batchOf (classifyChunk c10cfg
        (initTableState c10cfg (initialState c10cfg) { table := "notes", data := c10chunk })
        { table := "notes", data := c10chunk }) "notes" =
      batchOf (initialState c10cfg) "notes" ++ [c10chunk]) ∧
      ∃ ρ ∈ extractRefs c10chunk,
        resolveChunk c10chunk none = Except.error (cannotResolveRefMsg ρ) :=
  ⟨(noconfig_ref_chunk_batched_then_flush_throws.1 c10cfg (initialState c10cfg)
      { table := "notes", data := c10chunk } rfl).2,
   noconfig_ref_chunk_batched_then_flush_throws.2.1 c10chunk
     ⟨("bookId", Val.ref c10ref), by decide, by decide⟩⟩

theorem numbered_map_fst (n : Nat) (xs : List α) :
    (numbered n xs).map Prod.fst = List.range' n xs.length := by
  induction xs generalizing n with
  | nil => simp [numbered]
  | cons a as ih => simp [numbered, ih, List.range']

theorem flushedPairs_map_fst (l : List Insert) (t : String)
    (hlen : ∀ e ∈ l, e.rowIndices.length = e.rawChunks.length) :
    (flushedPairs l t).map Prod.fst = flushedIdxs l t := by
  induction l with
  | nil => rfl
  | cons e rest ih =>
    have h1 : (eventPairs e).map Prod.fst = e.rowIndices :=
      List.map_fst_zip _ _ (le_of_eq (hlen e (by simp)))
    have h2 := ih (fun e2 he2 => hlen e2 (List.mem_cons_of_mem _ he2))
    have hsplit1 : flushedPairs (e :: rest) t =
        (if e.table == t then eventPairs e else []) ++ flushedPairs rest t := by
      simp only [flushedPairs, List.map_cons, List.flatten_cons]
    have hsplit2 : flushedIdxs (e :: rest) t =
        (if e.table == t then e.rowIndices else []) ++ flushedIdxs rest t := by
      simp only [flushedIdxs, List.map_cons, List.flatten_cons]
    rw [hsplit1, hsplit2, List.map_append, h2]
    congr 1
    by_cases ht : (e.table == t) = true
    · rw [if_pos ht, if_pos ht, h1]
    · rw [if_neg ht, if_neg ht]; rfl

theorem flushedIdxs_append (l1 l2 : List Insert) (t : String) :
    flushedIdxs (l1 ++ l2) t = flushedIdxs l1 t ++ flushedIdxs l2 t := by
  simp [flushedIdxs]

theorem mem_flushedIdxs {l : List Insert} {e : Insert} {t : String} {r : Nat}
    (he : e ∈ l) (ht : e.table = t) (hr : r ∈ e.rowIndices) : r ∈ flushedIdxs l t := by
  simp only [flushedIdxs, List.mem_flatten, List.mem_map]
  exact ⟨if e.table == t then e.rowIndices else [], ⟨e, he, rfl⟩, by simp [ht, hr]⟩

/-- C1: on every successful run, the (row index, chunk) pairs passed to
the external bulk insert are, per table, a permutation of the stream's
chunks for that table numbered in generation order — every consumed
chunk is inserted exactly once — each insert carries one resolved row
per chunk, and no chunk remains in any table's batch or queue. -/
theorem execute_inserts_each_chunk_exactly_once
    (cfg : SeederConfig) (stream : List RawChunk) (s : EngineState)
    (h : execute cfg stream = Except.ok s) :
    (∀ t, (flushedPairs s.inserts t).Perm (numbered 0 (tableStream stream t))) ∧
      (∀ e ∈ s.inserts, e.rows.length = e.rawChunks.length) ∧
      ∀ t ts, lookupAssoc s.tableStates t = some ts → ts.batch = [] ∧ ts.queue = [] := by
  obtain ⟨inv, hempty⟩ := execute_ok_inv h
  refine ⟨?_, inv.erows, hempty⟩
  intro t
  have hperm := inv.perm t
  have htp : tablePairs s.tableStates t = [] := by
    cases hl : lookupAssoc s.tableStates t with
    | none => simp [tablePairs, hl]
    | some ts =>
      obtain ⟨hb, hq⟩ := hempty t ts hl
      simp [tablePairs, hl, tsPairs, hb, hq]
  rw [htp, List.append_nil] at hperm
  exact hperm

/-- C1 witness: the two-row run inserts exactly the two numbered
chunks. -/
theorem execute_inserts_each_chunk_exactly_once_witness :
    (flushedPairs (exOk (execute w1cfg w1stream)).inserts "users").Perm
      (numbered 0 (tableStream w1stream "users")) :=
  (execute_inserts_each_chunk_exactly_once w1cfg w1stream
    (exOk (execute w1cfg w1stream)) (by decide)).1 "users"

/-- C2: on every successful run, whenever a flushed chunk holds a
reference whose target column is declared in the refs config, the flush
event that inserted the referenced row lies strictly before the event
carrying the dependent chunk, and the referenced row is never inserted
at or after that event. -/
theorem execute_dependency_ordering
    (cfg : SeederConfig) (stream : List RawChunk) (s : EngineState)
    (h : execute cfg stream = Except.ok s)
    (pre : List Insert) (ej : Insert) (post : List Insert)
    (hsplit : s.inserts = pre ++ ej :: post)
    (c : Chunk) (hc : c ∈ ej.rawChunks) (ρ : RefData) (hρ : ρ ∈ extractRefs c)
    (hdecl : ρ.refColumnName ∈ (lookupAssoc cfg.refsConfig ρ.refTableName).getD []) :
    (∃ e2 ∈ pre, e2.table = ρ.refTableName ∧ ρ.refRowIndex ∈ e2.rowIndices) ∧
      ∀ e3 ∈ ej :: post, e3.table = ρ.refTableName → ρ.refRowIndex ∉ e3.rowIndices := by
  obtain ⟨inv, hempty⟩ := execute_ok_inv h
  have hex := inv.evref pre ej post hsplit c hc ρ hρ
  refine ⟨hex, ?_⟩
  intro e3 he3 ht3 hr3
  have hperm := inv.perm ρ.refTableName
  have htp : tablePairs s.tableStates ρ.refTableName = [] := by
    cases hl : lookupAssoc s.tableStates ρ.refTableName with
    | none => simp [tablePairs, hl]
    | some ts =>
      obtain ⟨hb, hq⟩ := hempty _ ts hl
      simp [tablePairs, hl, tsPairs, hb, hq]
  rw [htp, List.append_nil] at hperm
  have hnod : (flushedIdxs s.inserts ρ.refTableName).Nodup := by
    have h1 := hperm.map Prod.fst
    rw [flushedPairs_map_fst _ _ inv.elen, numbered_map_fst] at h1
    exact h1.nodup_iff.mpr (List.nodup_range' _ _)
  rw [hsplit, flushedIdxs_append] at hnod
  have hdisj := List.disjoint_of_nodup_append hnod
  rcases hex with ⟨e2, he2, h1, h2⟩
  exact hdisj (mem_flushedIdxs he2 h1 h2) (mem_flushedIdxs he3 ht3 hr3)

/-- C2 witness: in the books/reviews run, the books event precedes the
reviews event carrying the reference, and books row 0 is inserted
nowhere else. -/
theorem execute_dependency_ordering_witness :
    (∃ e2 ∈ [w2booksEvent], e2.table = w2ref.refTableName ∧
        w2ref.refRowIndex ∈ e2.rowIndices) ∧
      ∀ e3 ∈ w2reviewsEvent :: ([] : List Insert), e3.table = w2ref.refTableName →
        w2ref.refRowIndex ∉ e3.rowIndices :=
  execute_dependency_ordering w2cfg w2stream (exOk (execute w2cfg w2stream)) (by decide)
    [w2booksEvent] w2reviewsEvent [] (by decide) w2reviewChunk (by decide) w2ref
    (by decide) (by decide)

set_option maxRecDepth 100000 in
/-- C3: evidence of the code bug: with a 500-column first chunk, table
`B`'s ceiling is `floor(999/500) = 1`, yet the final drain unblocks two
queued `B` rows at once and the finalizer flushes both in a single bulk
insert of 2 rows, exceeding the ceiling. -/
theorem batch_ceiling_violated_by_drain_unblocked_batch :
    execute c3cfg c3stream = Except.ok (exOk (execute c3cfg c3stream)) ∧
      ((exOk (execute c3cfg c3stream)).inserts.map (fun e => (e.table, e.rows.length))) =
        [("A", 1), ("B", 2)] ∧
      (lookupAssoc (exOk (execute c3cfg c3stream)).tableStates "B").map
        (fun ts => (ts.batchSize, ts.columnCount)) = some (1, 500) ∧
      getBatchSizeForTable 999 500 = 1 := by
  decide

set_option maxRecDepth 100000 in
/-- C4: evidence of the code bug: in the spec's books/reviews scenario
with an auto-generated id, the engine omits `id` from the books insert
payload (so only the database knows the actual ids), records the raw
placeholder object in the reference store, and inserts the serialized
`GeneratedAsPlaceholder` marker as `reviews[0].bookId` — which no
database-assigned plain value can ever equal. -/
theorem generated_id_ref_inserts_placeholder :
    (execute c4cfg c4stream = Except.ok (exOk (execute c4cfg c4stream)) ∧
      ((exOk (execute c4cfg c4stream)).inserts.map (fun e => (e.table, e.rows))) =
        [("books", [[("title", Val.plain (Plain.pstr "a"))],
                    [("title", Val.plain (Plain.pstr "b"))]]),
         ("reviews", [[("bookId", Val.generated)]])]) ∧
      ∀ p : Plain, Val.plain p ≠ Val.generated := by
  refine ⟨by decide, ?_⟩
  intro p hp
  cases hp

end DrizzleSeeder
